import Mathlib

/-!
Verification of the WebRTC signaling hub of Go-Next-WebRTC
(backend `websocket` package: `SignalingServer`, `Room`, `Client`,
`registerClient`, `unregisterClient`, `broadcastToRoom`, `forwardMessage`,
`handleMessage`, `readPump`, `HandleWebSocket`).

The Go code is shallowly embedded as pure Lean functions over an explicit
server state.  Go maps (`s.rooms`, `room.Clients`) are modelled as
association lists with unique keys; Go buffered channels are modelled as a
bounded queue (`Mailbox`) stored in a channel heap keyed by an allocation
counter (`nextChan`), which models pointer identity of
`make(chan []byte, 256)`.  Operations that can panic in Go (sending on or
closing a closed channel) return `Option`: `none` models a panic, `some s`
a normal return with next state `s`.  The Hub's control loop serializes
register/unregister/broadcast, so each operation is modelled as one atomic
state transformation; the channel send `s.broadcast <- m` followed by the
loop's `broadcastToRoom(m)` is modelled as a direct call.
-/

namespace SignalingHub

/-! ### Association lists: the model of Go maps -/

/-- Lookup in an association list: the model of `m[k]` on a Go map
(first entry with the key; keys are unique in all reachable states). -/
def alistLookup {κ α : Type} [DecidableEq κ] (k : κ) : List (κ × α) → Option α
  | [] => none
  | (k', v) :: rest => if k' = k then some v else alistLookup k rest

/-- Insertion: the model of `m[k] = v` on a Go map (replaces the entry
in place if the key is present, otherwise appends it). -/
def alistInsert {κ α : Type} [DecidableEq κ] (k : κ) (v : α) :
    List (κ × α) → List (κ × α)
  | [] => [(k, v)]
  | (k', v') :: rest =>
    if k' = k then (k, v) :: rest else (k', v') :: alistInsert k v rest

/-- Deletion: the model of `delete(m, k)` on a Go map. -/
def alistErase {κ α : Type} [DecidableEq κ] (k : κ) :
    List (κ × α) → List (κ × α)
  | [] => []
  | (k', v') :: rest => if k' = k then rest else (k', v') :: alistErase k rest

/-! ### JSON syntax validity

`encoding/json.Marshal` validates the bytes of every `json.RawMessage`
field (via `compact`) and returns an error when they are not a
syntactically valid JSON value.  The validator below models exactly that
syntactic check (RFC 8259 grammar). -/

/-- The character left brace, written via its code point. -/
def lbrace : Char := Char.ofNat 123

/-- The character right brace, written via its code point. -/
def rbrace : Char := Char.ofNat 125

/-- JSON insignificant whitespace. -/
def jsonIsWs (c : Char) : Bool := c = ' ' || c = '\t' || c = '\n' || c = '\r'

/-- Skip leading JSON whitespace. -/
def jsonSkipWs : List Char → List Char
  | [] => []
  | c :: cs => if jsonIsWs c then jsonSkipWs cs else c :: cs

/-- Hexadecimal digit test for `\u` escapes. -/
def jsonIsHexDigit (c : Char) : Bool :=
  c.isDigit || ('a' ≤ c && c ≤ 'f') || ('A' ≤ c && c ≤ 'F')

/-- Consume the remainder of a JSON string (the opening quote already
consumed); returns the rest of the input on success. -/
def jsonChompString : List Char → Option (List Char)
  | [] => none
  | c :: cs =>
    if c = '"' then some cs
    else if c = '\\' then
      match cs with
      | [] => none
      | e :: cs2 =>
        if e = 'u' then
          match cs2 with
          | h1 :: h2 :: h3 :: h4 :: cs3 =>
            if jsonIsHexDigit h1 && jsonIsHexDigit h2 && jsonIsHexDigit h3
                && jsonIsHexDigit h4 then
              jsonChompString cs3
            else none
          | _ => none
        else if e = '"' || e = '\\' || e = '/' || e = 'b' || e = 'f'
            || e = 'n' || e = 'r' || e = 't' then
          jsonChompString cs2
        else none
    else if c.toNat < 32 then none
    else jsonChompString cs

/-- Consume a maximal run of decimal digits. -/
def jsonDropDigits : List Char → List Char
  | [] => []
  | c :: cs => if c.isDigit then jsonDropDigits cs else c :: cs

/-- Consume at least one decimal digit. -/
def jsonChompDigits1 : List Char → Option (List Char)
  | [] => none
  | c :: cs => if c.isDigit then some (jsonDropDigits cs) else none

/-- Consume the integer part of a JSON number: `0`, or a nonzero digit
followed by digits (leading zeros are invalid). -/
def jsonChompInt : List Char → Option (List Char)
  | [] => none
  | c :: cs =>
    if c = '0' then some cs
    else if c.isDigit then some (jsonDropDigits cs)
    else none

/-- Consume an optional fraction part. -/
def jsonChompFrac (l : List Char) : Option (List Char) :=
  match l with
  | '.' :: cs => jsonChompDigits1 cs
  | _ => some l

/-- Consume an optional exponent part. -/
def jsonChompExp (l : List Char) : Option (List Char) :=
  match l with
  | c :: cs =>
    if c = 'e' || c = 'E' then
      match cs with
      | s :: cs2 =>
        if s = '+' || s = '-' then jsonChompDigits1 cs2 else jsonChompDigits1 cs
      | [] => none
    else some l
  | [] => some l

/-- Consume a JSON number (optional minus, int, frac, exp). -/
def jsonChompNumber (l : List Char) : Option (List Char) :=
  let l1 := match l with
    | '-' :: cs => cs
    | _ => l
  (jsonChompInt l1).bind fun l2 => (jsonChompFrac l2).bind jsonChompExp

/-- Consume an exact literal (used for `true`, `false`, `null`). -/
def jsonChompLit : List Char → List Char → Option (List Char)
  | [], l => some l
  | _ :: _, [] => none
  | c :: cs, x :: xs => if x = c then jsonChompLit cs xs else none

mutual

/-- Consume one JSON value; the fuel bounds recursion depth and always
suffices when it exceeds the input length. -/
def jsonChompValue : Nat → List Char → Option (List Char)
  | 0, _ => none
  | fuel + 1, l =>
    match jsonSkipWs l with
    | [] => none
    | c :: cs =>
      if c = '"' then jsonChompString cs
      else if c = lbrace then jsonChompMembers fuel (jsonSkipWs cs) true
      else if c = '[' then jsonChompElements fuel (jsonSkipWs cs) true
      else if c = 't' then jsonChompLit ['r', 'u', 'e'] cs
      else if c = 'f' then jsonChompLit ['a', 'l', 's', 'e'] cs
      else if c = 'n' then jsonChompLit ['u', 'l', 'l'] cs
      else if c = '-' || c.isDigit then jsonChompNumber (c :: cs)
      else none

/-- Consume the members of a JSON object after the opening brace. -/
def jsonChompMembers : Nat → List Char → Bool → Option (List Char)
  | 0, _, _ => none
  | fuel + 1, l, first =>
    match l with
    | [] => none
    | c :: cs =>
      if first && c = rbrace then some cs
      else if c = '"' then
        match jsonChompString cs with
        | none => none
        | some l2 =>
          match jsonSkipWs l2 with
          | ':' :: l3 =>
            match jsonChompValue fuel l3 with
            | none => none
            | some l4 =>
              match jsonSkipWs l4 with
              | c2 :: l5 =>
                if c2 = rbrace then some l5
                else if c2 = ',' then jsonChompMembers fuel (jsonSkipWs l5) false
                else none
              | [] => none
          | _ => none
      else none

/-- Consume the elements of a JSON array after the opening bracket. -/
def jsonChompElements : Nat → List Char → Bool → Option (List Char)
  | 0, _, _ => none
  | fuel + 1, l, first =>
    match l with
    | [] => none
    | c :: cs =>
      if first && c = ']' then some cs
      else
        match jsonChompValue fuel (c :: cs) with
        | none => none
        | some l2 =>
          match jsonSkipWs l2 with
          | c2 :: l3 =>
            if c2 = ']' then some l3
            else if c2 = ',' then jsonChompElements fuel (jsonSkipWs l3) false
            else none
          | [] => none

end

/-- Syntactic validity of a byte string as one JSON value: the check
`json.Marshal` applies to every `json.RawMessage` it emits. -/
def jsonValid (s : String) : Bool :=
  match jsonChompValue (s.length + 2) s.data with
  | some rest => (jsonSkipWs rest).isEmpty
  | none => false

/-! ### Go JSON string quoting -/

/-- Lowercase hexadecimal digit for a value below 16. -/
def hexDigitChar (n : Nat) : Char :=
  if n < 10 then Char.ofNat (48 + n) else Char.ofNat (87 + n)

/-- Escaping of one character inside a Go-marshalled JSON string
(`encoding/json` with its default HTML escaping). -/
def goEscapeChar (c : Char) : List Char :=
  if c = '"' then ['\\', '"']
  else if c = '\\' then ['\\', '\\']
  else if c = '\n' then ['\\', 'n']
  else if c = '\r' then ['\\', 'r']
  else if c = '\t' then ['\\', 't']
  else if c = '<' then ['\\', 'u', '0', '0', '3', 'c']
  else if c = '>' then ['\\', 'u', '0', '0', '3', 'e']
  else if c = '&' then ['\\', 'u', '0', '0', '2', '6']
  else if c.toNat < 32 then
    ['\\', 'u', '0', '0', hexDigitChar (c.toNat / 16), hexDigitChar (c.toNat % 16)]
  else if c.toNat = 8232 then ['\\', 'u', '2', '0', '2', '8']
  else if c.toNat = 8233 then ['\\', 'u', '2', '0', '2', '9']
  else [c]

/-- Model of Go's JSON quoting of a string value. -/
def goQuoteString (s : String) : String :=
  "\"" ++ String.mk (s.data.map goEscapeChar).flatten ++ "\""

/-! ### The wire message -/

/-- Model of the Go struct `Message` (`type`, `from`, `to`, `data`);
the Go field `From` is called `from_` because `from` is a Lean keyword.
`data` models the `json.RawMessage` payload: `none` is a nil raw message
(field omitted), `some d` holds the raw bytes `d`. -/
structure Message where
  type : String
  from_ : String
  to_ : String
  data : Option String
deriving DecidableEq, Repr

/-- Model of `json.Marshal` on `Message`: fields in declaration order,
`from`/`to`/`data` omitted when empty (their tags carry `omitempty`), and
the marshal fails (Go returns an error, modelled `none`) when the
`json.RawMessage` payload is not valid JSON.  The raw payload is emitted
verbatim; this abstracts from the whitespace compaction Go additionally
applies to an already-valid `RawMessage`. -/
def marshalMessage (m : Message) : Option String :=
  let dataOk := match m.data with
    | none => true
    | some d => jsonValid d
  if dataOk = true then
    some ("\x7b\"type\":" ++ goQuoteString m.type
      ++ (if m.from_ = "" then "" else ",\"from\":" ++ goQuoteString m.from_)
      ++ (if m.to_ = "" then "" else ",\"to\":" ++ goQuoteString m.to_)
      ++ (match m.data with
          | none => ""
          | some d => ",\"data\":" ++ d)
      ++ "\x7d")
  else none

/-- The raw `Data` bytes built by `registerClient` and `unregisterClient`:
the Go expression is a backquoted JSON fragment concatenated with
`string(rune(participantCount))`, that is, with the UTF-8 encoding of the
code point `participantCount` — not with its decimal representation.
(`Char.ofNat` models the rune conversion; participant counts are far below
the first invalid code point, where the two differ.) -/
def participantsCountData (n : Nat) : String :=
  "\x7b\"participants_count\": " ++ String.mk [Char.ofNat n] ++ "\x7d"

/-! ### The hub state -/

/-- Model of one Go channel `chan []byte` with its buffer: `capacity` is
the buffer size passed to `make`, `pending` the queued byte-messages
(oldest first), `closed` whether `close` has been called. -/
structure Mailbox where
  capacity : Nat
  pending : List String
  closed : Bool
deriving DecidableEq, Repr

/-- Model of the Go struct `Client`.  `send` is the handle of the
client's `Send` channel in the server's channel heap (it models the
channel pointer stored in the struct). -/
structure Client where
  id : String
  roomId : String
  userId : Int
  send : Nat
deriving DecidableEq, Repr

/-- Model of the Go struct `Room`: the identifier and the member map
`Clients map[string]*Client`. -/
structure Room where
  id : String
  clients : List (String × Client)
deriving DecidableEq, Repr

/-- Model of the Go struct `BroadcastMessage`. -/
structure BroadcastMessage where
  roomId : String
  message : String
  exclude : String
deriving DecidableEq, Repr

/-- Model of the Go struct `SignalingServer` together with the heap of
channels its clients refer to: `rooms` is the room map, `chans` assigns
each allocated channel handle its buffer state, and `nextChan` is the
allocation counter producing fresh handles (pointer freshness). -/
structure SignalingServer where
  rooms : List (String × Room)
  chans : List (Nat × Mailbox)
  nextChan : Nat
deriving DecidableEq, Repr

/-- Model of `NewSignalingServer()`: no rooms, no channels allocated. -/
def NewSignalingServer : SignalingServer :=
  { rooms := [], chans := [], nextChan := 0 }

/-! ### Channel primitives -/

/-- The effect of a successful buffered-channel send attempt: enqueue if
the buffer has space, otherwise the `select`/`default` branch drops the
newly offered message and leaves the buffer unchanged. -/
def pushIfSpace (mb : Mailbox) (b : String) : Mailbox :=
  if mb.pending.length < mb.capacity then
    { mb with pending := mb.pending ++ [b] }
  else mb

/-- Model of `select { case ch <- b: default: }` on a buffered channel:
panics (`none`) if the channel is closed, otherwise never blocks —
enqueues when there is buffer space and silently drops when full. -/
def chanTrySend (mb : Mailbox) (b : String) : Option Mailbox :=
  if mb.closed then none else some (pushIfSpace mb b)

/-- Model of `close(ch)`: panics (`none`) on a channel already closed. -/
def chanClose (mb : Mailbox) : Option Mailbox :=
  if mb.closed then none else some { mb with closed := true }

/-- Whether the channel behind handle `h` exists and is open. -/
def chanOpen (s : SignalingServer) (h : Nat) : Bool :=
  match alistLookup h s.chans with
  | some mb => !mb.closed
  | none => false

/-- One non-blocking send of `b` into `c.Send` (the shared
`select`/`default` pattern of `broadcastToRoom` and `forwardMessage`),
resolving the channel handle through the heap. -/
def sendToClient (s : SignalingServer) (c : Client) (b : String) :
    Option SignalingServer :=
  match alistLookup c.send s.chans with
  | none => none
  | some mb =>
    match chanTrySend mb b with
    | none => none
    | some mb' => some { s with chans := alistInsert c.send mb' s.chans }

/-! ### Hub operations -/

/-- The member loop of `broadcastToRoom`: for each entry of the room's
client map, skip it when it equals the non-empty `Exclude` id, otherwise
attempt a non-blocking send. -/
def broadcastLoop (msgB exclude : String) :
    SignalingServer → List (String × Client) → Option SignalingServer
  | s, [] => some s
  | s, (cid, cl) :: rest =>
    if exclude ≠ "" ∧ cid = exclude then broadcastLoop msgB exclude s rest
    else
      match sendToClient s cl msgB with
      | none => none
      | some s' => broadcastLoop msgB exclude s' rest

/-- Model of `broadcastToRoom`: look the room up; a missing room is a
silent no-op; otherwise run the member loop. -/
def broadcastToRoom (s : SignalingServer) (bm : BroadcastMessage) :
    Option SignalingServer :=
  match alistLookup bm.roomId s.rooms with
  | none => some s
  | some room => broadcastLoop bm.message bm.exclude s room.clients

/-- Model of `registerClient`: create the room if absent, store the
client under its id (in-place overwrite on a duplicate id), then
broadcast a `user-joined` message built from the new participant count to
the room, excluding the joiner.  (`msgBytes, _ := json.Marshal(joinMsg)`
discards the marshal error, so a failed marshal broadcasts the nil byte
slice, modelled as `""`.) -/
def registerClient (s : SignalingServer) (client : Client) :
    Option SignalingServer :=
  let room : Room := match alistLookup client.roomId s.rooms with
    | none => { id := client.roomId, clients := [] }
    | some r => r
  let room' : Room := { room with clients := alistInsert client.id client room.clients }
  let participantCount := room'.clients.length
  let s1 : SignalingServer := { s with rooms := alistInsert client.roomId room' s.rooms }
  let joinMsg : Message :=
    { type := "user-joined", from_ := client.id, to_ := "",
      data := some (participantsCountData participantCount) }
  let msgBytes := (marshalMessage joinMsg).getD ""
  broadcastToRoom s1
    { roomId := client.roomId, message := msgBytes, exclude := client.id }

/-- Model of `unregisterClient`: no-op when the client's room is absent
or its id is not in the room; otherwise delete the map entry, close the
client's `Send` channel, broadcast `user-left` (count after removal,
marshal error again discarded) to the remaining members, and delete the
room in the same step when it became empty. -/
def unregisterClient (s : SignalingServer) (client : Client) :
    Option SignalingServer :=
  match alistLookup client.roomId s.rooms with
  | none => some s
  | some room =>
    match alistLookup client.id room.clients with
    | none => some s
    | some _ =>
      let room' := { room with clients := alistErase client.id room.clients }
      let participantCount := room'.clients.length
      let s1 := { s with rooms := alistInsert client.roomId room' s.rooms }
      match alistLookup client.send s1.chans with
      | none => none
      | some mb =>
        match chanClose mb with
        | none => none
        | some mb' =>
          let s2 := { s1 with chans := alistInsert client.send mb' s1.chans }
          let leaveMsg : Message :=
            { type := "user-left", from_ := client.id, to_ := "",
              data := some (participantsCountData participantCount) }
          let msgBytes := (marshalMessage leaveMsg).getD ""
          match broadcastToRoom s2
              { roomId := client.roomId, message := msgBytes, exclude := "" } with
          | none => none
          | some s3 =>
            some (if participantCount = 0 then
                    { s3 with rooms := alistErase client.roomId s3.rooms }
                  else s3)

/-- Model of `forwardMessage`: drop (with only a log) when the `to` field
is empty, the sender's room is gone, the recipient is not in the sender's
room, or the marshal fails; otherwise non-blocking send of the marshalled
bytes to the recipient found in the sender's own room. -/
def forwardMessage (s : SignalingServer) (client : Client) (msg : Message) :
    Option SignalingServer :=
  if msg.to_ = "" then some s
  else
    match alistLookup client.roomId s.rooms with
    | none => some s
    | some room =>
      match alistLookup msg.to_ room.clients with
      | none => some s
      | some targetClient =>
        match marshalMessage msg with
        | none => some s
        | some msgBytes => sendToClient s targetClient msgBytes

/-- Model of `handleMessage`: overwrite the sender field with the
authenticated client id, then route by kind — the three signaling kinds
are forwarded, `leave` unregisters the sender, anything else is logged
and dropped. -/
def handleMessage (s : SignalingServer) (client : Client) (msg : Message) :
    Option SignalingServer :=
  let msg' := { msg with from_ := client.id }
  if msg'.type = "offer" ∨ msg'.type = "answer" ∨ msg'.type = "ice-candidate" then
    forwardMessage s client msg'
  else if msg'.type = "leave" then
    unregisterClient s client
  else
    some s

/-- One iteration of `readPump`'s loop body after `ReadMessage` returned
a frame: `frame` is the result of `json.Unmarshal` on the frame bytes —
`none` when the bytes are not parseable JSON, in which case the pump logs
and `continue`s without touching any state. -/
def readPumpStep (s : SignalingServer) (client : Client)
    (frame : Option Message) : Option SignalingServer :=
  match frame with
  | none => some s
  | some msg => handleMessage s client msg

/-- Model of `HandleWebSocket` after a successful upgrade: build the
client with a fresh `Send` channel of capacity 256 and hand it to
`registerClient` through the `register` channel. -/
def HandleWebSocket (s : SignalingServer) (roomID clientID : String)
    (userID : Int) : Option SignalingServer :=
  let h := s.nextChan
  let client : Client :=
    { id := clientID, roomId := roomID, userId := userID, send := h }
  let s1 : SignalingServer := { s with
    chans := alistInsert h { capacity := 256, pending := [], closed := false } s.chans,
    nextChan := h + 1 }
  registerClient s1 client

/-- Whether `client` is currently registered in the room named by its
`RoomID` (the membership test `unregisterClient` performs). -/
def isMember (s : SignalingServer) (client : Client) : Bool :=
  match alistLookup client.roomId s.rooms with
  | none => false
  | some room => (alistLookup client.id room.clients).isSome

/-! ### Replaying register/unregister sequences on one room

The spec's replay property quantifies over finite sequences of
register/unregister calls on one room.  A register models the full
connection path (`HandleWebSocket`: fresh 256-slot channel, then
`registerClient`); an unregister models the pump handing the registered
client struct back (`s.unregister <- client`), so it unregisters the
client currently stored under that identity, or a never-registered stub
when the identity is absent. -/

/-- One request of the replay harness. -/
inductive HubOp where
  | register (id : String)
  | unregister (id : String)
deriving DecidableEq, Repr

/-- Apply one request to the server, all on room `r`. -/
def applyOp (r : String) (s : SignalingServer) : HubOp → Option SignalingServer
  | .register i => HandleWebSocket s r i 0
  | .unregister i =>
    let c : Client := match alistLookup r s.rooms with
      | none => { id := i, roomId := r, userId := 0, send := 0 }
      | some room =>
        match alistLookup i room.clients with
        | none => { id := i, roomId := r, userId := 0, send := 0 }
        | some cl => cl
    unregisterClient s c

/-- Run a request sequence from a given state. -/
def replayLoop (r : String) : SignalingServer → List HubOp → Option SignalingServer
  | s, [] => some s
  | s, op :: rest =>
    match applyOp r s op with
    | none => none
    | some s' => replayLoop r s' rest

/-- Run a request sequence from the freshly constructed server. -/
def replay (r : String) (ops : List HubOp) : Option SignalingServer :=
  replayLoop r NewSignalingServer ops

/-- Spec-side membership bookkeeping for one request: the identities
registered and not subsequently unregistered. -/
def memberStep (acc : List String) : HubOp → List String
  | .register i => if i ∈ acc then acc else acc ++ [i]
  | .unregister i => acc.erase i

/-- Spec-side membership after a request sequence, from an accumulator. -/
def expectedMembersFrom (acc : List String) : List HubOp → List String
  | [] => acc
  | op :: rest => expectedMembersFrom (memberStep acc op) rest

/-- Spec-side membership after a request sequence: exactly the
registered-but-not-unregistered identities, in first-registration order. -/
def expectedMembers (ops : List HubOp) : List String :=
  expectedMembersFrom [] ops

/-- The identities in room `r`'s member map (empty if the room is
absent from the hub's table). -/
def roomMembers (r : String) (s : SignalingServer) : List String :=
  match alistLookup r s.rooms with
  | none => []
  | some room => room.clients.map Prod.fst

/-- States reachable by the replay harness on room `r`: the room table
holds at most the one room, member entries are keyed by their client's
id has its room id set to `r`, every member's channel is allocated,
open and below the allocation counter, and ids and channel handles are
duplicate-free. -/
structure ReplayInv (r : String) (s : SignalingServer) : Prop where
  shape : s.rooms = [] ∨ ∃ room, s.rooms = [(r, room)]
  keysNodup : ∀ room, alistLookup r s.rooms = some room →
    (room.clients.map Prod.fst).Nodup
  wf : ∀ room, alistLookup r s.rooms = some room → ∀ p ∈ room.clients,
    p.2.id = p.1 ∧ p.2.roomId = r ∧ p.2.send < s.nextChan ∧
      chanOpen s p.2.send = true
  sendsNodup : ∀ room, alistLookup r s.rooms = some room →
    (room.clients.map (fun p => p.2.send)).Nodup

/-! ### Concrete states used by the closed instances -/

/-- A participant "alice" in room "r1" on channel 0. -/
def demoAlice : Client := { id := "alice", roomId := "r1", userId := 1, send := 0 }

/-- A participant "bob" in room "r1" on channel 1. -/
def demoBob : Client := { id := "bob", roomId := "r1", userId := 2, send := 1 }

/-- A participant "carol" in room "r2" on channel 2. -/
def demoCarol : Client := { id := "carol", roomId := "r2", userId := 3, send := 2 }

/-- A fresh 256-slot mailbox, as `HandleWebSocket` allocates it. -/
def demoMailbox : Mailbox := { capacity := 256, pending := [], closed := false }

/-- Room "r1" populated with alice and bob. -/
def demoServer : SignalingServer :=
  { rooms := [("r1",
      { id := "r1", clients := [("alice", demoAlice), ("bob", demoBob)] })],
    chans := [(0, demoMailbox), (1, demoMailbox)],
    nextChan := 2 }

/-- Two rooms: alice alone in "r1", carol alone in "r2". -/
def demoTwoRooms : SignalingServer :=
  { rooms := [("r1", { id := "r1", clients := [("alice", demoAlice)] }),
              ("r2", { id := "r2", clients := [("carol", demoCarol)] })],
    chans := [(0, demoMailbox), (2, demoMailbox)],
    nextChan := 3 }

/-- A saturated two-slot mailbox. -/
def fullMailbox : Mailbox := { capacity := 2, pending := ["m1", "m2"], closed := false }

/-- Alice and bob in "r1", alice's mailbox saturated. -/
def demoFullServer : SignalingServer :=
  { rooms := [("r1",
      { id := "r1", clients := [("alice", demoAlice), ("bob", demoBob)] })],
    chans := [(0, fullMailbox), (1, demoMailbox)],
    nextChan := 2 }

/-- Alice alone in "r1". -/
def soloServer : SignalingServer :=
  { rooms := [("r1", { id := "r1", clients := [("alice", demoAlice)] })],
    chans := [(0, demoMailbox)],
    nextChan := 1 }

/-- A client struct never registered anywhere in `demoServer`. -/
def demoGhost : Client := { id := "ghost", roomId := "r1", userId := 9, send := 7 }

/-- The offer of Scenario B, with a client-supplied forged sender. -/
def demoOffer : Message :=
  { type := "offer", from_ := "EVIL", to_ := "bob", data := some "\x7b\"sdp\":\"X\"\x7d" }

/-! ## Theorems -/

theorem alistLookup_insert_self {κ α : Type} [DecidableEq κ] (k : κ) (v : α)
    (l : List (κ × α)) : alistLookup k (alistInsert k v l) = some v := by
  induction l with
  | nil => simp [alistInsert, alistLookup]
  | cons hd tl ih =>
    obtain ⟨a, b⟩ := hd
    by_cases h : a = k
    · simp [alistInsert, alistLookup, h]
    · simpa [alistInsert, alistLookup, h] using ih

theorem alistLookup_insert_ne {κ α : Type} [DecidableEq κ] {k k' : κ} (v : α)
    (l : List (κ × α)) (hne : k' ≠ k) :
    alistLookup k' (alistInsert k v l) = alistLookup k' l := by
  induction l with
  | nil => simp [alistInsert, alistLookup, Ne.symm hne]
  | cons hd tl ih =>
    obtain ⟨a, b⟩ := hd
    by_cases h : a = k
    · subst h
      simp [alistInsert, alistLookup, Ne.symm hne]
    · by_cases h2 : a = k'
      · subst h2
        simp [alistInsert, alistLookup, h]
      · simpa [alistInsert, alistLookup, h, h2] using ih

theorem alistInsert_keys {κ α : Type} [DecidableEq κ] (k : κ) (v : α)
    (l : List (κ × α)) :
    (alistInsert k v l).map Prod.fst =
      if k ∈ l.map Prod.fst then l.map Prod.fst else l.map Prod.fst ++ [k] := by
  induction l with
  | nil => simp [alistInsert]
  | cons hd tl ih =>
    obtain ⟨a, b⟩ := hd
    by_cases h : a = k
    · simp [alistInsert, h]
    · have hne : ¬ k = a := fun hh => h hh.symm
      by_cases hmem : k ∈ tl.map Prod.fst
      · simp [alistInsert, h, hmem, hne, ih]
      · simp [alistInsert, h, hmem, hne, ih]

theorem alistErase_keys {κ α : Type} [DecidableEq κ] (k : κ)
    (l : List (κ × α)) :
    (alistErase k l).map Prod.fst = (l.map Prod.fst).erase k := by
  induction l with
  | nil => simp [alistErase]
  | cons hd tl ih =>
    obtain ⟨a, b⟩ := hd
    by_cases h : a = k
    · simp [alistErase, h, List.erase_cons]
    · have hbeq : ¬ a == k := by simpa using h
      simp only [alistErase, if_neg h, List.map_cons, List.erase_cons]
      simp only [List.map_cons] at ih ⊢
      rw [if_neg hbeq, ih]

theorem alistLookup_eq_none_of_not_mem {κ α : Type} [DecidableEq κ] {k : κ}
    {l : List (κ × α)} (h : k ∉ l.map Prod.fst) : alistLookup k l = none := by
  induction l with
  | nil => rfl
  | cons hd tl ih =>
    obtain ⟨a, b⟩ := hd
    simp only [List.map_cons, List.mem_cons] at h
    push_neg at h
    have hne : ¬ a = k := fun hh => h.1 hh.symm
    simpa [alistLookup, hne] using ih h.2

theorem mem_keys_of_alistLookup_eq_some {κ α : Type} [DecidableEq κ] {k : κ}
    {v : α} {l : List (κ × α)} (h : alistLookup k l = some v) :
    k ∈ l.map Prod.fst := by
  by_contra hmem
  rw [alistLookup_eq_none_of_not_mem hmem] at h
  exact Option.noConfusion h

theorem alistLookup_erase_self {κ α : Type} [DecidableEq κ] (k : κ)
    {l : List (κ × α)} (hnd : (l.map Prod.fst).Nodup) :
    alistLookup k (alistErase k l) = none := by
  induction l with
  | nil => rfl
  | cons hd tl ih =>
    obtain ⟨a, b⟩ := hd
    simp only [List.map_cons, List.nodup_cons] at hnd
    by_cases h : a = k
    · subst h
      simpa [alistErase] using alistLookup_eq_none_of_not_mem hnd.1
    · simpa [alistErase, alistLookup, h] using ih hnd.2

theorem alistLookup_erase_ne {κ α : Type} [DecidableEq κ] {k k' : κ}
    (l : List (κ × α)) (hne : k' ≠ k) :
    alistLookup k' (alistErase k l) = alistLookup k' l := by
  induction l with
  | nil => rfl
  | cons hd tl ih =>
    obtain ⟨a, b⟩ := hd
    by_cases h : a = k
    · subst h
      simp [alistErase, alistLookup, Ne.symm hne]
    · by_cases h2 : a = k'
      · subst h2
        simp [alistErase, alistLookup, h]
      · simpa [alistErase, alistLookup, h, h2] using ih

theorem mem_alistInsert {κ α : Type} [DecidableEq κ] {k : κ} {v : α}
    {p : κ × α} {l : List (κ × α)} (h : p ∈ alistInsert k v l) :
    p = (k, v) ∨ p ∈ l := by
  induction l with
  | nil => simpa [alistInsert] using h
  | cons hd tl ih =>
    obtain ⟨a, b⟩ := hd
    by_cases hk : a = k
    · simp only [alistInsert, if_pos hk] at h
      rcases List.mem_cons.mp h with h1 | h1
      · exact Or.inl h1
      · exact Or.inr (List.mem_cons_of_mem _ h1)
    · simp only [alistInsert, if_neg hk] at h
      rcases List.mem_cons.mp h with h1 | h1
      · exact Or.inr (h1 ▸ List.mem_cons_self _ _)
      · rcases ih h1 with h2 | h2
        · exact Or.inl h2
        · exact Or.inr (List.mem_cons_of_mem _ h2)

theorem mem_alistErase {κ α : Type} [DecidableEq κ] {k : κ}
    {p : κ × α} {l : List (κ × α)} (h : p ∈ alistErase k l) : p ∈ l := by
  induction l with
  | nil => exact absurd h (by simp [alistErase])
  | cons hd tl ih =>
    obtain ⟨a, b⟩ := hd
    by_cases hk : a = k
    · simp only [alistErase, if_pos hk] at h
      exact List.mem_cons_of_mem _ h
    · simp only [alistErase, if_neg hk] at h
      rcases List.mem_cons.mp h with h1 | h1
      · exact h1 ▸ List.mem_cons_self _ _
      · exact List.mem_cons_of_mem _ (ih h1)

theorem fst_mem_of_mem {κ α : Type} {p : κ × α} {l : List (κ × α)}
    (h : p ∈ l) : p.1 ∈ l.map Prod.fst := List.mem_map_of_mem Prod.fst h

theorem mem_of_alistLookup_eq_some {κ α : Type} [DecidableEq κ] {k : κ}
    {v : α} {l : List (κ × α)} (h : alistLookup k l = some v) : (k, v) ∈ l := by
  induction l with
  | nil => exact absurd h (by simp [alistLookup])
  | cons hd tl ih =>
    obtain ⟨a, b⟩ := hd
    by_cases ha : a = k
    · subst ha
      simp only [alistLookup, if_pos rfl] at h
      obtain rfl : b = v := by injection h
      exact List.mem_cons_self _ _
    · simp only [alistLookup, if_neg ha] at h
      exact List.mem_cons_of_mem _ (ih h)

/-! ### Lemmas about the channel primitives and sends -/

theorem pushIfSpace_closed (mb : Mailbox) (b : String) :
    (pushIfSpace mb b).closed = mb.closed := by
  unfold pushIfSpace
  split <;> rfl

theorem pushIfSpace_capacity (mb : Mailbox) (b : String) :
    (pushIfSpace mb b).capacity = mb.capacity := by
  unfold pushIfSpace
  split <;> rfl

theorem pushIfSpace_of_full {mb : Mailbox} (b : String)
    (h : ¬ mb.pending.length < mb.capacity) : pushIfSpace mb b = mb := by
  unfold pushIfSpace
  rw [if_neg h]

theorem pushIfSpace_of_space {mb : Mailbox} (b : String)
    (h : mb.pending.length < mb.capacity) :
    pushIfSpace mb b = { mb with pending := mb.pending ++ [b] } := by
  unfold pushIfSpace
  rw [if_pos h]

theorem sendToClient_eq {s : SignalingServer} {c : Client} {b : String}
    {mb : Mailbox} (h : alistLookup c.send s.chans = some mb)
    (hopen : mb.closed = false) :
    sendToClient s c b =
      some { s with chans := alistInsert c.send (pushIfSpace mb b) s.chans } := by
  unfold sendToClient chanTrySend
  rw [h]
  simp [hopen]

theorem sendToClient_inv {s s' : SignalingServer} {c : Client} {b : String}
    (h : sendToClient s c b = some s') :
    ∃ mb, alistLookup c.send s.chans = some mb ∧ mb.closed = false ∧
      s' = { s with chans := alistInsert c.send (pushIfSpace mb b) s.chans } := by
  unfold sendToClient chanTrySend at h
  cases hmb : alistLookup c.send s.chans with
  | none => rw [hmb] at h; exact absurd h (by simp)
  | some mb =>
    rw [hmb] at h
    by_cases hcl : mb.closed = true
    · simp [hcl] at h
    · simp only [Bool.not_eq_true] at hcl
      simp [hcl] at h
      exact ⟨mb, rfl, hcl, h.symm⟩

theorem sendToClient_chans_preserve {s s' : SignalingServer} {c : Client}
    {b : String} (h : sendToClient s c b = some s') :
    ∀ (hh : Nat) (mbx : Mailbox), alistLookup hh s.chans = some mbx →
      ∃ mbx', alistLookup hh s'.chans = some mbx' ∧
        mbx'.closed = mbx.closed ∧ mbx'.capacity = mbx.capacity := by
  obtain ⟨mb, hmb, hcl, rfl⟩ := sendToClient_inv h
  intro hh mbx hlk
  by_cases he : hh = c.send
  · subst he
    rw [hmb] at hlk
    obtain rfl : mb = mbx := by injection hlk
    exact ⟨pushIfSpace mb b, by simpa using alistLookup_insert_self _ _ _,
      pushIfSpace_closed mb b, pushIfSpace_capacity mb b⟩
  · exact ⟨mbx, by simpa [alistLookup_insert_ne _ _ he] using hlk, rfl, rfl⟩

theorem chanOpen_sendToClient {s s' : SignalingServer} {c : Client}
    {b : String} (h : sendToClient s c b = some s') :
    ∀ hh : Nat, chanOpen s hh = true → chanOpen s' hh = true := by
  intro hh hop
  unfold chanOpen at hop ⊢
  cases hlk : alistLookup hh s.chans with
  | none => rw [hlk] at hop; exact absurd hop (by simp)
  | some mbx =>
    rw [hlk] at hop
    obtain ⟨mbx', hlk', hcl, _⟩ := sendToClient_chans_preserve h hh mbx hlk
    rw [hlk']
    simp only [Bool.not_eq_eq_eq_not, Bool.not_true] at hop ⊢
    rw [hcl]
    exact hop

theorem sendToClient_frame {s s' : SignalingServer} {c : Client} {b : String}
    (h : sendToClient s c b = some s') :
    s'.rooms = s.rooms ∧ s'.nextChan = s.nextChan ∧
      ∀ hh : Nat, hh ≠ c.send → alistLookup hh s'.chans = alistLookup hh s.chans := by
  obtain ⟨mb, hmb, hcl, rfl⟩ := sendToClient_inv h
  exact ⟨rfl, rfl, fun hh hne => alistLookup_insert_ne _ _ hne⟩

/-! ### Lemmas about the broadcast loop -/

theorem broadcastLoop_total (b e : String) :
    ∀ (l : List (String × Client)) (s : SignalingServer),
      (∀ p ∈ l, ¬(e ≠ "" ∧ p.1 = e) → chanOpen s p.2.send = true) →
      ∃ s', broadcastLoop b e s l = some s' := by
  intro l
  induction l with
  | nil => exact fun s _ => ⟨s, rfl⟩
  | cons hd tl ih =>
    intro s hopen
    obtain ⟨cid, cl⟩ := hd
    by_cases hc : e ≠ "" ∧ cid = e
    · rw [show broadcastLoop b e s ((cid, cl) :: tl) = broadcastLoop b e s tl by
        simp [broadcastLoop, hc]]
      exact ih s fun p hp => hopen p (List.mem_cons_of_mem _ hp)
    · have hop : chanOpen s cl.send = true :=
        hopen (cid, cl) (List.mem_cons_self _ _) hc
      unfold chanOpen at hop
      cases hmb : alistLookup cl.send s.chans with
      | none => rw [hmb] at hop; exact absurd hop (by simp)
      | some mb =>
        rw [hmb] at hop
        have hcl : mb.closed = false := by simpa using hop
        have hsend := sendToClient_eq (c := cl) (b := b) hmb hcl
        rw [show broadcastLoop b e s ((cid, cl) :: tl) =
            broadcastLoop b e
              { s with chans := alistInsert cl.send (pushIfSpace mb b) s.chans } tl by
          simp [broadcastLoop, hc, hsend]]
        refine ih _ fun p hp hpe => ?_
        exact chanOpen_sendToClient hsend p.2.send
          (hopen p (List.mem_cons_of_mem _ hp) hpe)

theorem broadcastLoop_inv {b e : String} :
    ∀ {l : List (String × Client)} {s s' : SignalingServer},
      broadcastLoop b e s l = some s' →
      s'.rooms = s.rooms ∧ s'.nextChan = s.nextChan ∧
      (∀ hh : Nat, (∀ p ∈ l, ¬(e ≠ "" ∧ p.1 = e) → p.2.send ≠ hh) →
        alistLookup hh s'.chans = alistLookup hh s.chans) ∧
      (∀ (hh : Nat) (mbx : Mailbox), alistLookup hh s.chans = some mbx →
        ∃ mbx', alistLookup hh s'.chans = some mbx' ∧
          mbx'.closed = mbx.closed ∧ mbx'.capacity = mbx.capacity) := by
  intro l
  induction l with
  | nil =>
    intro s s' h
    obtain rfl : s = s' := by simpa [broadcastLoop] using h
    exact ⟨rfl, rfl, fun _ _ => rfl, fun hh mbx hlk => ⟨mbx, hlk, rfl, rfl⟩⟩
  | cons hd tl ih =>
    intro s s' h
    obtain ⟨cid, cl⟩ := hd
    by_cases hc : e ≠ "" ∧ cid = e
    · rw [show broadcastLoop b e s ((cid, cl) :: tl) = broadcastLoop b e s tl by
        simp [broadcastLoop, hc]] at h
      obtain ⟨h1, h2, h3, h4⟩ := ih h
      exact ⟨h1, h2, fun hh hne => h3 hh fun p hp => hne p (List.mem_cons_of_mem _ hp),
        h4⟩
    · have hstep : ∃ s1, sendToClient s cl b = some s1 ∧ broadcastLoop b e s1 tl = some s' := by
        revert h
        simp only [broadcastLoop, if_neg hc]
        cases hsc : sendToClient s cl b with
        | none => intro h; exact absurd h (by simp)
        | some s1 => exact fun h => ⟨s1, rfl, h⟩
      obtain ⟨s1, hsc, hrest⟩ := hstep
      obtain ⟨h1, h2, h3, h4⟩ := ih hrest
      obtain ⟨g1, g2, g3⟩ := sendToClient_frame hsc
      refine ⟨h1.trans g1, h2.trans g2, ?_, ?_⟩
      · intro hh hne
        have hcl : cl.send ≠ hh := hne (cid, cl) (List.mem_cons_self _ _) hc
        rw [h3 hh fun p hp => hne p (List.mem_cons_of_mem _ hp)]
        exact g3 hh fun he => hcl he.symm
      · intro hh mbx hlk
        obtain ⟨mbx1, hlk1, e1, e2⟩ := sendToClient_chans_preserve hsc hh mbx hlk
        obtain ⟨mbx2, hlk2, f1, f2⟩ := h4 hh mbx1 hlk1
        exact ⟨mbx2, hlk2, f1.trans e1, f2.trans e2⟩

theorem broadcastLoop_member {b e : String} :
    ∀ {l : List (String × Client)} {s s' : SignalingServer},
      broadcastLoop b e s l = some s' →
      (l.map (fun p => p.2.send)).Nodup →
      ∀ p ∈ l, ¬(e ≠ "" ∧ p.1 = e) →
        ∀ mb, alistLookup p.2.send s.chans = some mb →
          alistLookup p.2.send s'.chans = some (pushIfSpace mb b) := by
  intro l
  induction l with
  | nil => intro s s' _ _ p hp; exact absurd hp (by simp)
  | cons hd tl ih =>
    intro s s' h hnd p hp hpe mb hmb
    obtain ⟨cid, cl⟩ := hd
    simp only [List.map_cons, List.nodup_cons] at hnd
    by_cases hc : e ≠ "" ∧ cid = e
    · rw [show broadcastLoop b e s ((cid, cl) :: tl) = broadcastLoop b e s tl by
        simp [broadcastLoop, hc]] at h
      rcases List.mem_cons.mp hp with rfl | hp'
      · exact absurd hc hpe
      · exact ih h hnd.2 p hp' hpe mb hmb
    · have hstep : ∃ s1, sendToClient s cl b = some s1 ∧ broadcastLoop b e s1 tl = some s' := by
        revert h
        simp only [broadcastLoop, if_neg hc]
        cases hsc : sendToClient s cl b with
        | none => intro h; exact absurd h (by simp)
        | some s1 => exact fun h => ⟨s1, rfl, h⟩
      obtain ⟨s1, hsc, hrest⟩ := hstep
      obtain ⟨mb0, hmb0, hcl0, rfl⟩ := sendToClient_inv hsc
      rcases List.mem_cons.mp hp with rfl | hp'
      · -- the head entry: its mailbox is updated here, then untouched by the rest
        simp only at hmb
        rw [hmb0] at hmb
        obtain rfl : mb0 = mb := by injection hmb
        obtain ⟨_, _, h3, _⟩ := broadcastLoop_inv hrest
        rw [h3 cl.send fun q hq _ => fun he => hnd.1 (by
          rw [← he]; exact List.mem_map_of_mem (fun p => p.2.send) hq)]
        simpa using alistLookup_insert_self _ _ _
      · -- a later entry: its mailbox passes unchanged through the head send
        have hne : p.2.send ≠ cl.send := fun he => hnd.1 (by
          rw [← he]; exact List.mem_map_of_mem (fun p => p.2.send) hp')
        refine ih hrest hnd.2 p hp' hpe mb ?_
        simpa [alistLookup_insert_ne _ _ hne] using hmb

theorem alistErase_sublist {κ α : Type} [DecidableEq κ] (k : κ)
    (l : List (κ × α)) : List.Sublist (alistErase k l) l := by
  induction l with
  | nil => simp [alistErase]
  | cons hd tl ih =>
    obtain ⟨a, b⟩ := hd
    by_cases h : a = k
    · simp only [alistErase, if_pos h]
      exact List.sublist_cons_self _ _
    · simp only [alistErase, if_neg h]
      exact List.Sublist.cons₂ _ ih

theorem alistInsert_map_nodup {κ α β : Type} [DecidableEq κ]
    (g : κ × α → β) (k : κ) (v : α) (l : List (κ × α))
    (hnd : (l.map g).Nodup) (hnew : g (k, v) ∉ l.map g) :
    ((alistInsert k v l).map g).Nodup := by
  induction l with
  | nil => simp [alistInsert]
  | cons hd tl ih =>
    obtain ⟨a, b⟩ := hd
    simp only [List.map_cons, List.nodup_cons] at hnd
    simp only [List.map_cons, List.mem_cons] at hnew
    push_neg at hnew
    by_cases h : a = k
    · subst h
      have hstep : alistInsert a v ((a, b) :: tl) = (a, v) :: tl := by
        simp [alistInsert]
      rw [hstep, List.map_cons, List.nodup_cons]
      exact ⟨hnew.2, hnd.2⟩
    · simp only [alistInsert, if_neg h, List.map_cons, List.nodup_cons]
      refine ⟨?_, ih hnd.2 hnew.2⟩
      intro hmem
      rcases List.mem_map.mp hmem with ⟨p, hp, hgp⟩
      rcases mem_alistInsert hp with rfl | hptl
      · exact hnew.1 hgp
      · exact hnd.1 (hgp ▸ List.mem_map_of_mem g hptl)

theorem alistInsert_keys_nodup {κ α : Type} [DecidableEq κ] (k : κ) (v : α)
    (l : List (κ × α)) (hnd : (l.map Prod.fst).Nodup) :
    ((alistInsert k v l).map Prod.fst).Nodup := by
  rw [alistInsert_keys]
  by_cases h : k ∈ l.map Prod.fst
  · rw [if_pos h]
    exact hnd
  · rw [if_neg h]
    simp [List.nodup_append, hnd, h]

theorem sends_ne_of_nodup {l : List (String × Client)} {p q : String × Client}
    (hnd : (l.map (fun x => x.2.send)).Nodup) (hp : p ∈ l) (hq : q ∈ l)
    (hne : p.1 ≠ q.1) : p.2.send ≠ q.2.send := by
  intro he
  exact hne (congrArg Prod.fst (List.inj_on_of_nodup_map hnd hp hq he))

theorem chanClose_of_open {mb : Mailbox} (h : mb.closed = false) :
    chanClose mb = some { mb with closed := true } := by
  unfold chanClose
  rw [h]
  rfl

theorem not_fst_eq_of_mem_alistErase {κ α : Type} [DecidableEq κ] {k : κ}
    {p : κ × α} {l : List (κ × α)} (hnd : (l.map Prod.fst).Nodup)
    (hp : p ∈ alistErase k l) : p.1 ≠ k := by
  intro he
  have h1 : p.1 ∈ (alistErase k l).map Prod.fst := fst_mem_of_mem hp
  rw [alistErase_keys] at h1
  rw [he] at h1
  exact hnd.not_mem_erase h1

theorem ite_chans (P : Prop) [Decidable P] (a : SignalingServer)
    (rms : List (String × Room)) :
    (if P then { a with rooms := rms } else a).chans = a.chans := by
  split <;> rfl

theorem chanOpen_iff {s : SignalingServer} {h : Nat} :
    chanOpen s h = true ↔
      ∃ mb, alistLookup h s.chans = some mb ∧ mb.closed = false := by
  unfold chanOpen
  cases hlk : alistLookup h s.chans with
  | none => simp
  | some mb => simp

theorem alistLookup_isSome_of_mem_keys {κ α : Type} [DecidableEq κ] {k : κ}
    {l : List (κ × α)} (h : k ∈ l.map Prod.fst) : (alistLookup k l).isSome := by
  induction l with
  | nil => simp at h
  | cons hd tl ih =>
    obtain ⟨a, b⟩ := hd
    by_cases ha : a = k
    · simp [alistLookup, ha]
    · simp only [List.map_cons, List.mem_cons] at h
      rcases h with h | h
      · exact absurd h.symm ha
      · simpa [alistLookup, ha] using ih h

theorem registerClient_spec (s : SignalingServer) (c : Client) (room0 : Room)
    (hroom : (match alistLookup c.roomId s.rooms with
              | none => ({ id := c.roomId, clients := [] } : Room)
              | some rr => rr) = room0)
    (hopen0 : ∀ p ∈ alistInsert c.id c room0.clients,
      ¬(c.id ≠ "" ∧ p.1 = c.id) → chanOpen s p.2.send = true) :
    ∃ s', registerClient s c = some s' ∧
      s'.rooms = alistInsert c.roomId ({ room0 with clients := alistInsert c.id c room0.clients }) s.rooms ∧
      s'.nextChan = s.nextChan ∧
      (∀ (hh : Nat) (mbx : Mailbox), alistLookup hh s.chans = some mbx →
        ∃ mbx', alistLookup hh s'.chans = some mbx' ∧
          mbx'.closed = mbx.closed ∧ mbx'.capacity = mbx.capacity) := by
  obtain ⟨s', hbl⟩ := broadcastLoop_total
    ((marshalMessage { type := "user-joined", from_ := c.id, to_ := "",
                       data := some (participantsCountData (alistInsert c.id c room0.clients).length) }).getD "")
    c.id
    (alistInsert c.id c room0.clients)
    { s with rooms := alistInsert c.roomId ({ room0 with clients := alistInsert c.id c room0.clients }) s.rooms }
    hopen0
  obtain ⟨hrooms, hnext, -, hpres⟩ := broadcastLoop_inv hbl
  refine ⟨s', ?_, hrooms, hnext, hpres⟩
  unfold registerClient broadcastToRoom
  dsimp only
  cases hlk : alistLookup c.roomId s.rooms with
  | none =>
    rw [hlk] at hroom
    dsimp only at hroom
    subst hroom
    dsimp only
    rw [alistLookup_insert_self]
    exact hbl
  | some rr =>
    rw [hlk] at hroom
    dsimp only at hroom
    subst hroom
    dsimp only
    rw [alistLookup_insert_self]
    exact hbl

theorem unregisterClient_spec (s : SignalingServer) (c : Client)
    (room : Room) (mb : Mailbox)
    (hroom : alistLookup c.roomId s.rooms = some room)
    (hself : alistLookup c.id room.clients = some c)
    (hmb : alistLookup c.send s.chans = some mb) (hopen : mb.closed = false)
    (hothers : ∀ p ∈ alistErase c.id room.clients,
      p.2.send ≠ c.send ∧ chanOpen s p.2.send = true) :
    ∃ s', unregisterClient s c = some s' ∧
      s'.rooms = (if (alistErase c.id room.clients).length = 0
        then alistErase c.roomId (alistInsert c.roomId ({ room with clients := alistErase c.id room.clients }) s.rooms)
        else alistInsert c.roomId ({ room with clients := alistErase c.id room.clients }) s.rooms) ∧
      s'.nextChan = s.nextChan ∧
      (∀ (hh : Nat) (mbx : Mailbox), hh ≠ c.send →
        alistLookup hh s.chans = some mbx →
        ∃ mbx', alistLookup hh s'.chans = some mbx' ∧
          mbx'.closed = mbx.closed ∧ mbx'.capacity = mbx.capacity) := by
  have hopen2 : ∀ p ∈ alistErase c.id room.clients,
      ¬(("" : String) ≠ "" ∧ p.1 = "") →
      chanOpen { s with rooms := alistInsert c.roomId ({ room with clients := alistErase c.id room.clients }) s.rooms, chans := alistInsert c.send ({ mb with closed := true }) s.chans } p.2.send = true := by
    intro p hp _
    obtain ⟨hsne, hop⟩ := hothers p hp
    unfold chanOpen at hop ⊢
    dsimp only
    rw [alistLookup_insert_ne _ _ hsne]
    exact hop
  obtain ⟨s3, hbl⟩ := broadcastLoop_total
    ((marshalMessage { type := "user-left", from_ := c.id, to_ := "",
                       data := some (participantsCountData (alistErase c.id room.clients).length) }).getD "")
    ""
    (alistErase c.id room.clients)
    { s with rooms := alistInsert c.roomId ({ room with clients := alistErase c.id room.clients }) s.rooms, chans := alistInsert c.send ({ mb with closed := true }) s.chans }
    hopen2
  obtain ⟨hrooms3, hnext3, hframe3, hpres3⟩ := broadcastLoop_inv hbl
  have he : unregisterClient s c =
      some (if (alistErase c.id room.clients).length = 0 then
        { s3 with rooms := alistErase c.roomId s3.rooms } else s3) := by
    unfold unregisterClient
    dsimp only
    rw [hroom]
    dsimp only
    rw [hself]
    dsimp only
    rw [hmb]
    dsimp only
    rw [chanClose_of_open hopen]
    dsimp only
    unfold broadcastToRoom
    dsimp only
    rw [alistLookup_insert_self]
    dsimp only
    rw [hbl]
  refine ⟨_, he, ?_, ?_, ?_⟩
  · by_cases hz : (alistErase c.id room.clients).length = 0
    · rw [if_pos hz, if_pos hz]
      dsimp only
      rw [hrooms3]
    · rw [if_neg hz, if_neg hz]
      rw [hrooms3]
  · by_cases hz : (alistErase c.id room.clients).length = 0
    · rw [if_pos hz]
      dsimp only
      exact hnext3
    · rw [if_neg hz]
      exact hnext3
  · intro hh mbx hhne hlkx
    have hlk2 : alistLookup hh (alistInsert c.send ({ mb with closed := true }) s.chans) = some mbx := by
      rw [alistLookup_insert_ne _ _ hhne]
      exact hlkx
    obtain ⟨mbx', hlk3, e1, e2⟩ := hpres3 hh mbx hlk2
    refine ⟨mbx', ?_, e1, e2⟩
    rw [ite_chans]
    exact hlk3

theorem handleWS_inv_core (r i : String) (s : SignalingServer) (room0 : Room)
    (hroom0 : (match alistLookup r s.rooms with
               | none => ({ id := r, clients := [] } : Room)
               | some rr => rr) = room0)
    (hshape : s.rooms = [] ∨ ∃ room, s.rooms = [(r, room)])
    (hkeys0 : (room0.clients.map Prod.fst).Nodup)
    (hwf0 : ∀ p ∈ room0.clients, p.2.id = p.1 ∧ p.2.roomId = r ∧
      p.2.send < s.nextChan ∧ chanOpen s p.2.send = true)
    (hsends0 : (room0.clients.map (fun p => p.2.send)).Nodup) :
    ∃ s', HandleWebSocket s r i 0 = some s' ∧ ReplayInv r s' ∧
      roomMembers r s' =
        memberStep (room0.clients.map Prod.fst) (HubOp.register i) := by
  have hopen0 : ∀ p ∈ alistInsert i ({ id := i, roomId := r, userId := 0, send := s.nextChan } : Client) room0.clients,
      ¬(i ≠ "" ∧ p.1 = i) →
      chanOpen { s with chans := alistInsert s.nextChan ({ capacity := 256, pending := [], closed := false } : Mailbox) s.chans, nextChan := s.nextChan + 1 } p.2.send = true := by
    intro p hp _
    rcases mem_alistInsert hp with rfl | hpm
    · rw [chanOpen_iff]
      exact ⟨{ capacity := 256, pending := [], closed := false },
        alistLookup_insert_self _ _ _, rfl⟩
    · obtain ⟨-, -, hlt, hop⟩ := hwf0 p hpm
      rw [chanOpen_iff] at hop ⊢
      obtain ⟨mbp, hmbp, hclp⟩ := hop
      have hne : p.2.send ≠ s.nextChan := Nat.ne_of_lt hlt
      exact ⟨mbp, (alistLookup_insert_ne _ _ hne).trans hmbp, hclp⟩
  obtain ⟨s', hreg, hrooms', hnext', hpres'⟩ := registerClient_spec
    { s with chans := alistInsert s.nextChan ({ capacity := 256, pending := [], closed := false } : Mailbox) s.chans, nextChan := s.nextChan + 1 }
    { id := i, roomId := r, userId := 0, send := s.nextChan }
    room0 hroom0 hopen0
  have hrooms2 : s'.rooms = [(r, { room0 with clients := alistInsert i ({ id := i, roomId := r, userId := 0, send := s.nextChan } : Client) room0.clients })] := by
    rw [hrooms']
    rcases hshape with h0 | ⟨room, h0⟩
    · rw [show ({ s with chans := alistInsert s.nextChan ({ capacity := 256, pending := [], closed := false } : Mailbox) s.chans, nextChan := s.nextChan + 1 } : SignalingServer).rooms = s.rooms from rfl, h0]
      simp [alistInsert]
    · rw [show ({ s with chans := alistInsert s.nextChan ({ capacity := 256, pending := [], closed := false } : Mailbox) s.chans, nextChan := s.nextChan + 1 } : SignalingServer).rooms = s.rooms from rfl, h0]
      simp [alistInsert]
  have hlk' : alistLookup r s'.rooms = some { room0 with clients := alistInsert i ({ id := i, roomId := r, userId := 0, send := s.nextChan } : Client) room0.clients } := by
    rw [hrooms2]
    simp [alistLookup]
  refine ⟨s', hreg, ?_, ?_⟩
  · refine ⟨Or.inr ⟨_, hrooms2⟩, ?_, ?_, ?_⟩
    · intro room1 h1
      rw [hlk'] at h1
      injection h1 with h1'
      subst h1'
      exact alistInsert_keys_nodup _ _ _ hkeys0
    · intro room1 h1 p hp
      rw [hlk'] at h1
      injection h1 with h1'
      subst h1'
      rcases mem_alistInsert hp with rfl | hpm
      · refine ⟨rfl, rfl, ?_, ?_⟩
        · rw [hnext']
          exact Nat.lt_succ_self _
        · rw [chanOpen_iff]
          obtain ⟨mbx', hlkx, hcl, -⟩ := hpres' s.nextChan
            { capacity := 256, pending := [], closed := false }
            (alistLookup_insert_self _ _ _)
          exact ⟨mbx', hlkx, by rw [hcl]⟩
      · obtain ⟨hid, hrid, hlt, hop⟩ := hwf0 p hpm
        refine ⟨hid, hrid, ?_, ?_⟩
        · rw [hnext']
          exact Nat.lt_succ_of_lt hlt
        · rw [chanOpen_iff] at hop ⊢
          obtain ⟨mbp, hmbp, hclp⟩ := hop
          have hne : p.2.send ≠ s.nextChan := Nat.ne_of_lt hlt
          obtain ⟨mbx', hlkx, hcl, -⟩ := hpres' p.2.send mbp
            ((alistLookup_insert_ne _ _ hne).trans hmbp)
          exact ⟨mbx', hlkx, by rw [hcl, hclp]⟩
    · intro room1 h1
      rw [hlk'] at h1
      injection h1 with h1'
      subst h1'
      apply alistInsert_map_nodup _ _ _ _ hsends0
      intro hmem
      rcases List.mem_map.mp hmem with ⟨p, hpm, hgp⟩
      exact absurd hgp (Nat.ne_of_lt (hwf0 p hpm).2.2.1)
  · unfold roomMembers
    rw [hlk']
    dsimp only
    rw [alistInsert_keys]
    rfl

theorem applyOp_unregister_inv (r i : String) (s : SignalingServer)
    (hinv : ReplayInv r s) :
    ∃ s', applyOp r s (HubOp.unregister i) = some s' ∧ ReplayInv r s' ∧
      roomMembers r s' = memberStep (roomMembers r s) (HubOp.unregister i) := by
  rcases hsh : hinv.shape with h0 | ⟨room, h0⟩
  · have hlkn : alistLookup r s.rooms = none := by rw [h0]; rfl
    have heq : applyOp r s (HubOp.unregister i) = some s := by
      simp only [applyOp]
      rw [hlkn]
      unfold unregisterClient
      dsimp only
      rw [hlkn]
    refine ⟨s, heq, hinv, ?_⟩
    have hm0 : roomMembers r s = [] := by
      unfold roomMembers
      rw [hlkn]
    rw [hm0]
    rfl
  · have hlks : alistLookup r s.rooms = some room := by
      rw [h0]
      simp [alistLookup]
    have hmemS : roomMembers r s = room.clients.map Prod.fst := by
      unfold roomMembers
      rw [hlks]
    cases hcl : alistLookup i room.clients with
    | none =>
      have heq : applyOp r s (HubOp.unregister i) = some s := by
        simp only [applyOp]
        rw [hlks]
        dsimp only
        rw [hcl]
        unfold unregisterClient
        dsimp only
        rw [hlks]
        dsimp only
        rw [hcl]
      refine ⟨s, heq, hinv, ?_⟩
      rw [hmemS]
      have hnm : i ∉ room.clients.map Prod.fst := by
        intro hm
        have hs := alistLookup_isSome_of_mem_keys hm
        rw [hcl] at hs
        simp at hs
      exact (List.erase_of_not_mem hnm).symm
    | some cl =>
      have hclmem : (i, cl) ∈ room.clients := mem_of_alistLookup_eq_some hcl
      obtain ⟨hid, hrid, hlt, hop⟩ := hinv.wf room hlks (i, cl) hclmem
      have hid' : cl.id = i := hid
      have hrid' : cl.roomId = r := hrid
      have hlt' : cl.send < s.nextChan := hlt
      rw [chanOpen_iff] at hop
      obtain ⟨mb, hmb, hmbcl⟩ := hop
      have hmb' : alistLookup cl.send s.chans = some mb := hmb
      have hknd := hinv.keysNodup room hlks
      have hsnd := hinv.sendsNodup room hlks
      have hothers : ∀ p ∈ alistErase cl.id room.clients,
          p.2.send ≠ cl.send ∧ chanOpen s p.2.send = true := by
        intro p hp
        have hpm : p ∈ room.clients := mem_alistErase hp
        have hpne : p.1 ≠ cl.id := not_fst_eq_of_mem_alistErase hknd hp
        refine ⟨?_, (hinv.wf room hlks p hpm).2.2.2⟩
        rw [hid'] at hpne
        exact sends_ne_of_nodup hsnd hpm hclmem hpne
      obtain ⟨s', huneq, hroomseq, hnexteq, hpres⟩ := unregisterClient_spec s cl room mb
        (by rw [hrid']; exact hlks)
        (by rw [hid']; exact hcl)
        hmb' hmbcl hothers
      have heq : applyOp r s (HubOp.unregister i) = unregisterClient s cl := by
        simp only [applyOp]
        rw [hlks]
        dsimp only
        rw [hcl]
      rw [hid', hrid'] at hroomseq
      have hrooms2 : s'.rooms = (if (alistErase i room.clients).length = 0
          then ([] : List (String × Room))
          else [(r, { room with clients := alistErase i room.clients })]) := by
        rw [hroomseq, h0]
        by_cases hz : (alistErase i room.clients).length = 0
        · rw [if_pos hz, if_pos hz]
          simp [alistInsert, alistErase]
        · rw [if_neg hz, if_neg hz]
          simp [alistInsert]
      have hothers2 : ∀ p ∈ alistErase i room.clients,
          p.2.send ≠ cl.send ∧ chanOpen s p.2.send = true := by
        rw [← hid']
        exact hothers
      refine ⟨s', by rw [heq]; exact huneq, ⟨?_, ?_, ?_, ?_⟩, ?_⟩
      · rw [hrooms2]
        by_cases hz : (alistErase i room.clients).length = 0
        · rw [if_pos hz]
          exact Or.inl rfl
        · rw [if_neg hz]
          exact Or.inr ⟨_, rfl⟩
      · intro room1 h1
        rw [hrooms2] at h1
        by_cases hz : (alistErase i room.clients).length = 0
        · rw [if_pos hz] at h1
          simp [alistLookup] at h1
        · rw [if_neg hz] at h1
          rw [show alistLookup r [(r, ({ room with clients := alistErase i room.clients } : Room))] = some ({ room with clients := alistErase i room.clients } : Room) from by simp [alistLookup]] at h1
          injection h1 with h1'
          subst h1'
          dsimp only
          rw [alistErase_keys]
          exact hknd.erase _
      · intro room1 h1 p hp
        rw [hrooms2] at h1
        by_cases hz : (alistErase i room.clients).length = 0
        · rw [if_pos hz] at h1
          simp [alistLookup] at h1
        · rw [if_neg hz] at h1
          rw [show alistLookup r [(r, ({ room with clients := alistErase i room.clients } : Room))] = some ({ room with clients := alistErase i room.clients } : Room) from by simp [alistLookup]] at h1
          injection h1 with h1'
          subst h1'
          have hpm : p ∈ room.clients := mem_alistErase hp
          obtain ⟨hid2, hrid2, hlt2, hop2⟩ := hinv.wf room hlks p hpm
          refine ⟨hid2, hrid2, ?_, ?_⟩
          · rw [hnexteq]
            exact hlt2
          · rw [chanOpen_iff] at hop2 ⊢
            obtain ⟨mbp, hmbp, hclp⟩ := hop2
            obtain ⟨mbx', hlkx, hclx, -⟩ := hpres p.2.send mbp (hothers2 p hp).1 hmbp
            exact ⟨mbx', hlkx, by rw [hclx, hclp]⟩
      · intro room1 h1
        rw [hrooms2] at h1
        by_cases hz : (alistErase i room.clients).length = 0
        · rw [if_pos hz] at h1
          simp [alistLookup] at h1
        · rw [if_neg hz] at h1
          rw [show alistLookup r [(r, ({ room with clients := alistErase i room.clients } : Room))] = some ({ room with clients := alistErase i room.clients } : Room) from by simp [alistLookup]] at h1
          injection h1 with h1'
          subst h1'
          dsimp only
          exact List.Nodup.sublist (List.Sublist.map _ (alistErase_sublist _ _)) hsnd
      · rw [hmemS]
        unfold roomMembers
        rw [hrooms2]
        by_cases hz : (alistErase i room.clients).length = 0
        · rw [if_pos hz]
          have hE : alistErase i room.clients = [] := List.length_eq_zero.mp hz
          show ([] : List String) = (room.clients.map Prod.fst).erase i
          rw [← alistErase_keys, hE]
          rfl
        · rw [if_neg hz]
          rw [show alistLookup r [(r, ({ room with clients := alistErase i room.clients } : Room))] = some ({ room with clients := alistErase i room.clients } : Room) from by simp [alistLookup]]
          dsimp only
          rw [alistErase_keys]
          rfl

theorem applyOp_register_inv (r i : String) (s : SignalingServer)
    (hinv : ReplayInv r s) :
    ∃ s', applyOp r s (HubOp.register i) = some s' ∧ ReplayInv r s' ∧
      roomMembers r s' = memberStep (roomMembers r s) (HubOp.register i) := by
  rcases hsh : hinv.shape with h0 | ⟨room, h0⟩
  · have hlkn : alistLookup r s.rooms = none := by rw [h0]; rfl
    obtain ⟨s', heq, hinv', hmem⟩ := handleWS_inv_core r i s { id := r, clients := [] }
      (by rw [hlkn]) hinv.shape (by simp) (by simp) (by simp)
    refine ⟨s', heq, hinv', ?_⟩
    rw [hmem]
    have hm0 : roomMembers r s = [] := by
      unfold roomMembers
      rw [hlkn]
    rw [hm0]
    rfl
  · have hlks : alistLookup r s.rooms = some room := by
      rw [h0]
      simp [alistLookup]
    obtain ⟨s', heq, hinv', hmem⟩ := handleWS_inv_core r i s room
      (by rw [hlks]) hinv.shape (hinv.keysNodup room hlks)
      (hinv.wf room hlks) (hinv.sendsNodup room hlks)
    refine ⟨s', heq, hinv', ?_⟩
    rw [hmem]
    have hmS : roomMembers r s = room.clients.map Prod.fst := by
      unfold roomMembers
      rw [hlks]
    rw [hmS]

theorem applyOp_inv (r : String) (op : HubOp) (s : SignalingServer)
    (hinv : ReplayInv r s) :
    ∃ s', applyOp r s op = some s' ∧ ReplayInv r s' ∧
      roomMembers r s' = memberStep (roomMembers r s) op := by
  cases op with
  | register i => exact applyOp_register_inv r i s hinv
  | unregister i => exact applyOp_unregister_inv r i s hinv

theorem replayLoop_inv (r : String) : ∀ (ops : List HubOp) (s : SignalingServer),
    ReplayInv r s →
    ∃ s', replayLoop r s ops = some s' ∧ ReplayInv r s' ∧
      roomMembers r s' = expectedMembersFrom (roomMembers r s) ops := by
  intro ops
  induction ops with
  | nil => exact fun s hinv => ⟨s, rfl, hinv, rfl⟩
  | cons op rest ih =>
    intro s hinv
    obtain ⟨s1, hop, hinv1, hmem1⟩ := applyOp_inv r op s hinv
    obtain ⟨s', hrest, hinv', hmem'⟩ := ih s1 hinv1
    refine ⟨s', ?_, hinv', ?_⟩
    · simp only [replayLoop]
      rw [hop]
      exact hrest
    · rw [hmem', hmem1]
      rfl

theorem emptyServer_inv (r : String) : ReplayInv r NewSignalingServer := by
  refine ⟨Or.inl rfl, ?_, ?_, ?_⟩ <;>
    · intro room h
      simp [NewSignalingServer, alistLookup] at h

theorem expectedMembersFrom_nodup : ∀ (ops : List HubOp) (acc : List String),
    acc.Nodup → (expectedMembersFrom acc ops).Nodup := by
  intro ops
  induction ops with
  | nil => exact fun acc h => h
  | cons op rest ih =>
    intro acc hacc
    refine ih _ ?_
    cases op with
    | register i =>
      by_cases h : i ∈ acc
      · simpa [memberStep, h] using hacc
      · simp [memberStep, h, List.nodup_append, hacc]
    | unregister i => simpa [memberStep] using hacc.erase i

/-! ### Claim C4: directed messages to missing recipients are dropped -/

/-- C4: an inbound offer/answer/ice-candidate whose recipient field is
empty, whose sender's room does not exist, or whose recipient is not a
member of the sender's own room (the only room ever consulted) is
dropped: the state — room table, every membership map, every mailbox —
is returned unchanged and no error reaches the sender. -/
theorem c4_directed_drop_is_noop (s : SignalingServer) (client : Client)
    (msg : Message)
    (htype : msg.type = "offer" ∨ msg.type = "answer" ∨ msg.type = "ice-candidate")
    (hdrop : msg.to_ = "" ∨ alistLookup client.roomId s.rooms = none ∨
      ∃ room, alistLookup client.roomId s.rooms = some room ∧
        alistLookup msg.to_ room.clients = none) :
    handleMessage s client msg = some s := by
  unfold handleMessage
  dsimp only
  rw [if_pos htype]
  unfold forwardMessage
  dsimp only
  rcases hdrop with hto | hroom | ⟨room, hroom, htgt⟩
  · rw [if_pos hto]
  · by_cases hto : msg.to_ = ""
    · rw [if_pos hto]
    · rw [if_neg hto, hroom]
  · by_cases hto : msg.to_ = ""
    · rw [if_pos hto]
    · rw [if_neg hto, hroom]
      dsimp only
      rw [htgt]

/-- Closed instance of C4: "alice" (in "r1") addresses "carol", who exists
but only in room "r2"; the offer is dropped and the two-room hub state is
returned unchanged. -/
theorem c4_directed_drop_is_noop_witness :
    handleMessage demoTwoRooms demoAlice
        { type := "offer", from_ := "spoof", to_ := "carol", data := none } =
      some demoTwoRooms :=
  c4_directed_drop_is_noop _ _ _ (Or.inl rfl)
    (Or.inr (Or.inr ⟨{ id := "r1", clients := [("alice", demoAlice)] },
      by decide, by decide⟩))

/-! ### Claim C9: malformed frames and unknown kinds are dropped -/

/-- C9: a frame that is not parseable JSON makes the read pump log and
continue with every part of the state untouched, and a parsed message
whose kind is none of offer/answer/ice-candidate/leave (such as `join`,
`user-joined` or `user-left`) is dropped by `handleMessage` without a
panic (`some`), without forwarding to any mailbox and without changing
any room membership. -/
theorem c9_unknown_kind_dropped (s : SignalingServer) (client : Client)
    (msg : Message)
    (h1 : msg.type ≠ "offer") (h2 : msg.type ≠ "answer")
    (h3 : msg.type ≠ "ice-candidate") (h4 : msg.type ≠ "leave") :
    readPumpStep s client none = some s ∧ handleMessage s client msg = some s := by
  refine ⟨rfl, ?_⟩
  unfold handleMessage
  dsimp only
  rw [if_neg (by simp [h1, h2, h3]), if_neg h4]

/-- Closed instance of C9: an unparseable frame and then a `join` message
leave the two-member hub state exactly as it was. -/
theorem c9_unknown_kind_dropped_witness :
    readPumpStep demoServer demoAlice none = some demoServer ∧
      handleMessage demoServer demoAlice
        { type := "join", from_ := "alice", to_ := "", data := none } =
      some demoServer :=
  c9_unknown_kind_dropped _ _ _ (by decide) (by decide) (by decide) (by decide)

/-! ### Claim C1: directed forwards rewrite the sender and keep the rest -/

/-- C1: for an inbound offer/answer/ice-candidate whose recipient is a
member of the sender's room (with an open, non-full mailbox), the bytes
enqueued into the recipient's mailbox are exactly the JSON encoding of
the message with `from` replaced by the sender's server-known identity —
whatever `from` the client supplied — and with `type`, `to` and `data`
exactly as received; the room table is unchanged. -/
theorem c1_forward_rewrites_sender (s : SignalingServer)
    (client targetClient : Client) (msg : Message) (room : Room)
    (mb : Mailbox) (bytes : String)
    (htype : msg.type = "offer" ∨ msg.type = "answer" ∨ msg.type = "ice-candidate")
    (hto : msg.to_ ≠ "")
    (hroom : alistLookup client.roomId s.rooms = some room)
    (htarget : alistLookup msg.to_ room.clients = some targetClient)
    (hmb : alistLookup targetClient.send s.chans = some mb)
    (hopen : mb.closed = false)
    (hspace : mb.pending.length < mb.capacity)
    (hbytes : marshalMessage
        { type := msg.type, from_ := client.id, to_ := msg.to_, data := msg.data } =
      some bytes) :
    ∃ s', handleMessage s client msg = some s' ∧ s'.rooms = s.rooms ∧
      alistLookup targetClient.send s'.chans =
        some { mb with pending := mb.pending ++ [bytes] } := by
  refine ⟨{ s with chans := alistInsert targetClient.send (pushIfSpace mb bytes) s.chans },
    ?_, rfl, ?_⟩
  · unfold handleMessage
    dsimp only
    rw [if_pos htype]
    unfold forwardMessage
    dsimp only
    rw [if_neg hto, hroom]
    dsimp only
    rw [htarget]
    dsimp only
    rw [hbytes]
    dsimp only
    exact sendToClient_eq hmb hopen
  · rw [alistLookup_insert_self, pushIfSpace_of_space _ hspace]

/-- Closed instance of C1 (Scenario B): "alice" sends an offer claiming to
be "EVIL"; "bob"'s mailbox receives exactly
`\x7b"type":"offer","from":"alice","to":"bob","data":\x7b"sdp":"X"\x7d\x7d`. -/
theorem c1_forward_rewrites_sender_witness :
    ∃ s', handleMessage demoServer demoAlice demoOffer = some s' ∧
      s'.rooms = demoServer.rooms ∧
      alistLookup demoBob.send s'.chans =
        some { demoMailbox with pending := demoMailbox.pending ++
          ["\x7b\"type\":\"offer\",\"from\":\"alice\",\"to\":\"bob\",\"data\":\x7b\"sdp\":\"X\"\x7d\x7d"] } :=
  c1_forward_rewrites_sender demoServer demoAlice demoBob demoOffer
    { id := "r1", clients := [("alice", demoAlice), ("bob", demoBob)] }
    demoMailbox
    "\x7b\"type\":\"offer\",\"from\":\"alice\",\"to\":\"bob\",\"data\":\x7b\"sdp\":\"X\"\x7d\x7d"
    (Or.inl rfl) (by decide) (by decide) (by decide) (by decide) (by decide)
    (by decide) (by decide)

/-! ### Claim C7: duplicate registration is last-writer-wins -/

/-- C7: registering a client whose identity is already present in its room
succeeds (no rejection): afterwards the room maps that identity to the
newly registered client, the list of member identities is exactly as
before, and so is the member count. -/
theorem c7_duplicate_register_overwrites (s : SignalingServer)
    (client : Client) (room : Room) (old : Client)
    (hroom : alistLookup client.roomId s.rooms = some room)
    (hold : alistLookup client.id room.clients = some old)
    (hcid : client.id ≠ "")
    (hopen : ∀ p ∈ room.clients, p.1 ≠ client.id → chanOpen s p.2.send = true) :
    ∃ s' room', registerClient s client = some s' ∧
      alistLookup client.roomId s'.rooms = some room' ∧
      alistLookup client.id room'.clients = some client ∧
      room'.clients.map Prod.fst = room.clients.map Prod.fst ∧
      room'.clients.length = room.clients.length := by
  have hopen1 : ∀ p ∈ alistInsert client.id client room.clients,
      ¬(client.id ≠ "" ∧ p.1 = client.id) →
      chanOpen { s with rooms := alistInsert client.roomId ({ room with clients := alistInsert client.id client room.clients }) s.rooms } p.2.send = true := by
    intro p hp hpe
    have hp1 : p.1 ≠ client.id := fun he => hpe ⟨hcid, he⟩
    have hpmem : p ∈ room.clients := by
      rcases mem_alistInsert hp with rfl | hmem
      · exact absurd rfl hp1
      · exact hmem
    exact hopen p hpmem hp1
  obtain ⟨s', hbl⟩ := broadcastLoop_total
    ((marshalMessage { type := "user-joined", from_ := client.id, to_ := "",
                       data := some (participantsCountData (alistInsert client.id client room.clients).length) }).getD "")
    client.id
    (alistInsert client.id client room.clients)
    { s with rooms := alistInsert client.roomId ({ room with clients := alistInsert client.id client room.clients }) s.rooms }
    hopen1
  obtain ⟨hrooms, -, -, -⟩ := broadcastLoop_inv hbl
  refine ⟨s', { room with clients := alistInsert client.id client room.clients },
    ?_, ?_, ?_, ?_, ?_⟩
  · unfold registerClient broadcastToRoom
    dsimp only
    rw [hroom]
    dsimp only
    rw [alistLookup_insert_self]
    exact hbl
  · rw [hrooms]
    exact alistLookup_insert_self _ _ _
  · exact alistLookup_insert_self _ _ _
  · dsimp only
    rw [alistInsert_keys, if_pos (mem_keys_of_alistLookup_eq_some hold)]
  · dsimp only
    calc (alistInsert client.id client room.clients).length
        = ((alistInsert client.id client room.clients).map Prod.fst).length :=
          (List.length_map _ _).symm
      _ = (room.clients.map Prod.fst).length := by
          rw [alistInsert_keys, if_pos (mem_keys_of_alistLookup_eq_some hold)]
      _ = room.clients.length := List.length_map _ _

/-- Closed instance of C7: re-registering identity "bob" with a new
connection object (new user id, new channel) overwrites the old entry;
"r1" still has exactly the members alice and bob. -/
theorem c7_duplicate_register_overwrites_witness :
    ∃ s' room',
      registerClient demoServer
          { id := "bob", roomId := "r1", userId := 7, send := 1 } = some s' ∧
      alistLookup "r1" s'.rooms = some room' ∧
      alistLookup "bob" room'.clients =
        some { id := "bob", roomId := "r1", userId := 7, send := 1 } ∧
      room'.clients.map Prod.fst = ["alice", "bob"] ∧
      room'.clients.length = 2 :=
  c7_duplicate_register_overwrites demoServer
    { id := "bob", roomId := "r1", userId := 7, send := 1 }
    { id := "r1", clients := [("alice", demoAlice), ("bob", demoBob)] }
    demoBob (by decide) (by decide) (by decide) (by decide)

/-! ### Claim C6: unregistering an absent participant is a no-op -/

/-- C6: unregistering a client that is not a member of its room (the only
room `unregisterClient` consults) returns the state exactly unchanged and
never panics; and a client that is a member is unregistered with its
mailbox closed exactly once — a second unregister of the same client is a
no-op on the resulting state, so the mailbox is closed at most once across
repeated unregisters. -/
theorem c6_unregister_absent_noop (s : SignalingServer) (c : Client)
    (room : Room) (mb : Mailbox) :
    (isMember s c = false → unregisterClient s c = some s) ∧
    ((s.rooms.map Prod.fst).Nodup →
     alistLookup c.roomId s.rooms = some room →
     alistLookup c.id room.clients = some c →
     (room.clients.map Prod.fst).Nodup →
     alistLookup c.send s.chans = some mb → mb.closed = false →
     (∀ p ∈ room.clients, p.1 ≠ c.id →
        p.2.send ≠ c.send ∧ chanOpen s p.2.send = true) →
     ∃ s₁, unregisterClient s c = some s₁ ∧
       alistLookup c.send s₁.chans = some { mb with closed := true } ∧
       unregisterClient s₁ c = some s₁) := by
  constructor
  · intro hA
    unfold isMember at hA
    unfold unregisterClient
    cases hr : alistLookup c.roomId s.rooms with
    | none => rfl
    | some room0 =>
      rw [hr] at hA
      dsimp only at hA
      dsimp only
      cases hlk : alistLookup c.id room0.clients with
      | none => rfl
      | some cl => rw [hlk] at hA; simp at hA
  · intro hrnd hroom hself hknd hmb hopen hothers
    have hmem' : ∀ p ∈ alistErase c.id room.clients, p ∈ room.clients ∧ p.1 ≠ c.id :=
      fun p hp => ⟨mem_alistErase hp, not_fst_eq_of_mem_alistErase hknd hp⟩
    have hopen2 : ∀ p ∈ alistErase c.id room.clients,
        ¬(("" : String) ≠ "" ∧ p.1 = "") →
        chanOpen { s with rooms := alistInsert c.roomId ({ room with clients := alistErase c.id room.clients }) s.rooms, chans := alistInsert c.send ({ mb with closed := true }) s.chans } p.2.send = true := by
      intro p hp _
      obtain ⟨hpm, hpne⟩ := hmem' p hp
      obtain ⟨hsne, hop⟩ := hothers p hpm hpne
      unfold chanOpen at hop ⊢
      dsimp only
      rw [alistLookup_insert_ne _ _ hsne]
      exact hop
    obtain ⟨s3, hbl⟩ := broadcastLoop_total
      ((marshalMessage { type := "user-left", from_ := c.id, to_ := "",
                         data := some (participantsCountData (alistErase c.id room.clients).length) }).getD "")
      ""
      (alistErase c.id room.clients)
      { s with rooms := alistInsert c.roomId ({ room with clients := alistErase c.id room.clients }) s.rooms, chans := alistInsert c.send ({ mb with closed := true }) s.chans }
      hopen2
    obtain ⟨hrooms3, hnext3, hframe3, hpres3⟩ := broadcastLoop_inv hbl
    have hc3 : alistLookup c.send s3.chans = some { mb with closed := true } := by
      rw [hframe3 c.send (fun p hp _ => (hothers p (hmem' p hp).1 (hmem' p hp).2).1)]
      exact alistLookup_insert_self _ _ _
    have he : unregisterClient s c =
        some (if (alistErase c.id room.clients).length = 0 then
          { s3 with rooms := alistErase c.roomId s3.rooms } else s3) := by
      unfold unregisterClient
      dsimp only
      rw [hroom]
      dsimp only
      rw [hself]
      dsimp only
      rw [hmb]
      dsimp only
      rw [chanClose_of_open hopen]
      dsimp only
      unfold broadcastToRoom
      dsimp only
      rw [alistLookup_insert_self]
      dsimp only
      rw [hbl]
    have hnd3 : (s3.rooms.map Prod.fst).Nodup := by
      rw [hrooms3]
      dsimp only
      rw [alistInsert_keys, if_pos (mem_keys_of_alistLookup_eq_some hroom)]
      exact hrnd
    refine ⟨if (alistErase c.id room.clients).length = 0 then
      { s3 with rooms := alistErase c.roomId s3.rooms } else s3, he, ?_, ?_⟩
    · rw [ite_chans]
      exact hc3
    · by_cases hz : (alistErase c.id room.clients).length = 0
      · rw [if_pos hz]
        unfold unregisterClient
        dsimp only
        rw [alistLookup_erase_self _ hnd3]
      · rw [if_neg hz]
        unfold unregisterClient
        have h1 : alistLookup c.roomId s3.rooms =
            some { room with clients := alistErase c.id room.clients } := by
          rw [hrooms3]
          dsimp only
          exact alistLookup_insert_self _ _ _
        rw [h1]
        dsimp only
        rw [alistLookup_erase_self _ hknd]

theorem broadcastLoop_insert_nil_excluded (b : String) {e cid : String}
    (s : SignalingServer) (cl : Client) (hcid : e ≠ "") (heq : cid = e) :
    broadcastLoop b e s (alistInsert cid cl []) = some s := by
  simp [alistInsert, broadcastLoop, hcid, heq]

/-- Closed instance of C6: unregistering the never-registered "ghost"
client leaves the two-member hub untouched; unregistering "bob" closes
his mailbox once, and unregistering him again is a no-op (no second
close, no panic). -/
theorem c6_unregister_absent_noop_witness :
    unregisterClient demoServer demoGhost = some demoServer ∧
    ∃ s₁, unregisterClient demoServer demoBob = some s₁ ∧
      alistLookup demoBob.send s₁.chans = some { demoMailbox with closed := true } ∧
      unregisterClient s₁ demoBob = some s₁ :=
  ⟨(c6_unregister_absent_noop demoServer demoGhost
      { id := "", clients := [] } demoMailbox).1 (by decide),
   (c6_unregister_absent_noop demoServer demoBob
      { id := "r1", clients := [("alice", demoAlice), ("bob", demoBob)] }
      demoMailbox).2 (by decide) (by decide) (by decide) (by decide)
      (by decide) (by decide) (by decide)⟩

/-! ### Claim C3: empty rooms are deleted and recreated from scratch -/

/-- C3: unregistering the last member of a room removes the room
identifier from the hub's table within the same operation, and a
subsequent register under that identifier creates a brand-new room whose
member map holds exactly the one new participant — no state of the old
room survives. -/
theorem c3_empty_room_deleted_and_recreated (s : SignalingServer)
    (c c' : Client) (room : Room) (mb : Mailbox)
    (hroom : alistLookup c.roomId s.rooms = some room)
    (hlast : room.clients = [(c.id, c)])
    (hmb : alistLookup c.send s.chans = some mb)
    (hopen : mb.closed = false)
    (hrnd : (s.rooms.map Prod.fst).Nodup)
    (hc' : c'.roomId = c.roomId) (hcid : c'.id ≠ "") :
    ∃ s₁, unregisterClient s c = some s₁ ∧ alistLookup c.roomId s₁.rooms = none ∧
      ∃ s₂, registerClient s₁ c' = some s₂ ∧
        alistLookup c.roomId s₂.rooms =
          some { id := c'.roomId, clients := [(c'.id, c')] } := by
  have herase : alistErase c.id room.clients = [] := by
    rw [hlast]
    simp [alistErase]
  have hself : alistLookup c.id room.clients = some c := by
    rw [hlast]
    simp [alistLookup]
  have he : unregisterClient s c =
      some { s with rooms := alistErase c.roomId (alistInsert c.roomId ({ room with clients := ([] : List (String × Client)) }) s.rooms), chans := alistInsert c.send ({ mb with closed := true }) s.chans } := by
    unfold unregisterClient
    dsimp only
    rw [hroom]
    dsimp only
    rw [hself]
    dsimp only
    rw [hmb]
    dsimp only
    rw [chanClose_of_open hopen]
    dsimp only
    unfold broadcastToRoom
    dsimp only
    rw [alistLookup_insert_self]
    dsimp only
    rw [herase]
    rfl
  have hnone : alistLookup c.roomId (alistErase c.roomId (alistInsert c.roomId ({ room with clients := ([] : List (String × Client)) }) s.rooms)) = none := by
    apply alistLookup_erase_self
    rw [alistInsert_keys, if_pos (mem_keys_of_alistLookup_eq_some hroom)]
    exact hrnd
  refine ⟨_, he, hnone, ?_⟩
  have hnone' : alistLookup c'.roomId (alistErase c.roomId (alistInsert c.roomId ({ room with clients := ([] : List (String × Client)) }) s.rooms)) = none := by
    rw [hc']
    exact hnone
  refine ⟨{ s with rooms := alistInsert c'.roomId ({ id := c'.roomId, clients := alistInsert c'.id c' [] }) (alistErase c.roomId (alistInsert c.roomId ({ room with clients := ([] : List (String × Client)) }) s.rooms)), chans := alistInsert c.send ({ mb with closed := true }) s.chans }, ?_, ?_⟩
  · unfold registerClient broadcastToRoom
    dsimp only
    rw [hnone']
    dsimp only
    rw [alistLookup_insert_self]
    dsimp only
    rw [broadcastLoop_insert_nil_excluded _ _ _ hcid rfl]
  · rw [show c.roomId = c'.roomId from hc'.symm]
    dsimp only
    have := alistLookup_insert_self c'.roomId
      ({ id := c'.roomId, clients := alistInsert c'.id c' [] } : Room)
      (alistErase c.roomId (alistInsert c.roomId ({ room with clients := ([] : List (String × Client)) }) s.rooms))
    rw [show c.roomId = c'.roomId from hc'.symm] at this
    simpa [alistInsert] using this

/-- Closed instance of C3 (Scenario D): "alice" is the sole member of
"r1"; unregistering her deletes "r1", and registering "carol2" into "r1"
afterwards yields a room holding exactly carol2. -/
theorem c3_empty_room_deleted_and_recreated_witness :
    ∃ s₁, unregisterClient soloServer demoAlice = some s₁ ∧
      alistLookup "r1" s₁.rooms = none ∧
      ∃ s₂, registerClient s₁
          { id := "carol2", roomId := "r1", userId := 4, send := 9 } = some s₂ ∧
        alistLookup "r1" s₂.rooms =
          some { id := "r1", clients :=
            [("carol2", { id := "carol2", roomId := "r1", userId := 4, send := 9 })] } :=
  c3_empty_room_deleted_and_recreated soloServer demoAlice
    { id := "carol2", roomId := "r1", userId := 4, send := 9 }
    { id := "r1", clients := [("alice", demoAlice)] } demoMailbox
    (by decide) (by decide) (by decide) (by decide) (by decide) (by decide)
    (by decide)

/-! ### Claim C8: a full mailbox drops only its own message -/

/-- C8: enqueueing to a recipient whose bounded mailbox is full — by
broadcast or by directed forward — drops the message for that recipient
only and returns without blocking: the full mailbox keeps exactly its old
contents, the same broadcast still appends the message to every other
non-excluded member's mailbox that has space, and (for the directed
forward) the room table and every mailbox are left as they were. -/
theorem c8_full_mailbox_drops_only_there (s : SignalingServer)
    (rid b e : String) (room : Room) (tid : String) (tc : Client)
    (mbT : Mailbox) (sender : Client) (msg : Message)
    (hroom : alistLookup rid s.rooms = some room)
    (hnodup : (room.clients.map (fun p => p.2.send)).Nodup)
    (hopen : ∀ p ∈ room.clients, ¬(e ≠ "" ∧ p.1 = e) → chanOpen s p.2.send = true)
    (htgt : alistLookup tid room.clients = some tc)
    (hne : ¬(e ≠ "" ∧ tid = e))
    (hmbT : alistLookup tc.send s.chans = some mbT)
    (hfull : ¬ mbT.pending.length < mbT.capacity)
    (hsender : sender.roomId = rid) (hto : msg.to_ = tid) :
    (∃ s', broadcastToRoom s { roomId := rid, message := b, exclude := e } = some s' ∧
      s'.rooms = s.rooms ∧
      alistLookup tc.send s'.chans = some mbT ∧
      ∀ p ∈ room.clients, ¬(e ≠ "" ∧ p.1 = e) →
        ∀ mb, alistLookup p.2.send s.chans = some mb →
          mb.pending.length < mb.capacity →
          alistLookup p.2.send s'.chans = some { mb with pending := mb.pending ++ [b] }) ∧
    (∃ s'', forwardMessage s sender msg = some s'' ∧ s''.rooms = s.rooms ∧
      ∀ hh : Nat, alistLookup hh s''.chans = alistLookup hh s.chans) := by
  have htmem : (tid, tc) ∈ room.clients := mem_of_alistLookup_eq_some htgt
  have htopen : mbT.closed = false := by
    have := hopen (tid, tc) htmem hne
    unfold chanOpen at this
    rw [hmbT] at this
    simpa using this
  constructor
  · obtain ⟨s', hbl⟩ := broadcastLoop_total b e room.clients s hopen
    obtain ⟨hrooms, -, -, -⟩ := broadcastLoop_inv hbl
    have hunfold : broadcastToRoom s { roomId := rid, message := b, exclude := e } = some s' := by
      unfold broadcastToRoom
      dsimp only
      rw [hroom]
      exact hbl
    refine ⟨s', hunfold, hrooms, ?_, ?_⟩
    · have := broadcastLoop_member hbl hnodup (tid, tc) htmem hne mbT hmbT
      rw [this, pushIfSpace_of_full _ hfull]
    · intro p hp hpe mb hmb hspace
      have := broadcastLoop_member hbl hnodup p hp hpe mb hmb
      rw [this, pushIfSpace_of_space _ hspace]
  · by_cases ht0 : msg.to_ = ""
    · refine ⟨s, ?_, rfl, fun _ => rfl⟩
      unfold forwardMessage
      rw [if_pos ht0]
    · have hlk : alistLookup msg.to_ room.clients = some tc := by
        rw [hto]
        exact htgt
      cases hm : marshalMessage msg with
      | none =>
        refine ⟨s, ?_, rfl, fun _ => rfl⟩
        unfold forwardMessage
        rw [if_neg ht0, hsender, hroom]
        dsimp only
        rw [hlk]
        dsimp only
        rw [hm]
      | some bytes =>
        refine ⟨{ s with chans := alistInsert tc.send (pushIfSpace mbT bytes) s.chans },
          ?_, rfl, ?_⟩
        · unfold forwardMessage
          rw [if_neg ht0, hsender, hroom]
          dsimp only
          rw [hlk]
          dsimp only
          rw [hm]
          dsimp only
          exact sendToClient_eq hmbT htopen
        · intro hh
          by_cases hhc : hh = tc.send
          · subst hhc
            rw [alistLookup_insert_self, pushIfSpace_of_full _ hfull, hmbT]
          · exact alistLookup_insert_ne _ _ hhc

/-- Closed instance of C8 (Scenario E): with "alice"'s two-slot mailbox
saturated, a room broadcast leaves it exactly full while "bob" still
receives the message, and a directed forward to "alice" leaves every
mailbox and the room table unchanged. -/
theorem c8_full_mailbox_drops_only_there_witness :
    (∃ s', broadcastToRoom demoFullServer
        { roomId := "r1", message := "x", exclude := "" } = some s' ∧
      s'.rooms = demoFullServer.rooms ∧
      alistLookup demoAlice.send s'.chans = some fullMailbox ∧
      ∀ p ∈ [("alice", demoAlice), ("bob", demoBob)],
        ¬(("" : String) ≠ "" ∧ p.1 = "") →
        ∀ mb, alistLookup p.2.send demoFullServer.chans = some mb →
          mb.pending.length < mb.capacity →
          alistLookup p.2.send s'.chans = some { mb with pending := mb.pending ++ ["x"] }) ∧
    (∃ s'', forwardMessage demoFullServer demoBob
        { type := "offer", from_ := "bob", to_ := "alice", data := none } = some s'' ∧
      s''.rooms = demoFullServer.rooms ∧
      ∀ hh : Nat, alistLookup hh s''.chans = alistLookup hh demoFullServer.chans) :=
  c8_full_mailbox_drops_only_there demoFullServer "r1" "x" ""
    { id := "r1", clients := [("alice", demoAlice), ("bob", demoBob)] }
    "alice" demoAlice fullMailbox demoBob
    { type := "offer", from_ := "bob", to_ := "alice", data := none }
    (by decide) (by decide) (by decide) (by decide) (by decide) (by decide)
    (by decide) (by decide) (by decide)

/-! ### Claim C10: mailboxes hold 256 messages and drop the newest -/

/-- C10: `HandleWebSocket` creates every participant's outbound mailbox
with capacity exactly 256 and empty; an enqueue attempted on a mailbox
whose 256 slots are pending returns the mailbox with exactly its old
contents (the newly offered message is the one discarded); and one
enqueue keeps the pending count within the capacity bound, so no
participant ever exceeds 256 pending messages. -/
theorem c10_mailbox_capacity_256 (s : SignalingServer)
    (roomID clientID : String) (userID : Int) (mb mb' : Mailbox) (b : String) :
    (clientID ≠ "" →
      (∀ room, alistLookup roomID s.rooms = some room →
        ∀ p ∈ room.clients, p.2.send ≠ s.nextChan ∧
          (p.1 ≠ clientID → chanOpen s p.2.send = true)) →
      ∃ s', HandleWebSocket s roomID clientID userID = some s' ∧
        alistLookup s.nextChan s'.chans =
          some { capacity := 256, pending := [], closed := false }) ∧
    (mb.closed = false → mb.pending.length = 256 → mb.capacity = 256 →
      chanTrySend mb b = some mb) ∧
    (mb.closed = false → mb.pending.length ≤ mb.capacity →
      chanTrySend mb b = some mb' → mb'.pending.length ≤ mb.capacity) := by
  refine ⟨?_, ?_, ?_⟩
  · intro hcid hfresh
    cases hr : alistLookup roomID s.rooms with
    | none =>
      refine ⟨{ s with rooms := alistInsert roomID ({ id := roomID, clients := alistInsert clientID { id := clientID, roomId := roomID, userId := userID, send := s.nextChan } [] }) s.rooms, chans := alistInsert s.nextChan ({ capacity := 256, pending := [], closed := false }) s.chans, nextChan := s.nextChan + 1 }, ?_, ?_⟩
      · unfold HandleWebSocket registerClient broadcastToRoom
        dsimp only
        rw [hr]
        dsimp only
        rw [alistLookup_insert_self]
        dsimp only
        rw [broadcastLoop_insert_nil_excluded _ _ _ hcid rfl]
      · exact alistLookup_insert_self _ _ _
    | some room =>
      have hopen1 : ∀ p ∈ alistInsert clientID ({ id := clientID, roomId := roomID, userId := userID, send := s.nextChan } : Client) room.clients,
          ¬(clientID ≠ "" ∧ p.1 = clientID) →
          chanOpen { s with rooms := alistInsert roomID ({ room with clients := alistInsert clientID ({ id := clientID, roomId := roomID, userId := userID, send := s.nextChan }) room.clients }) s.rooms, chans := alistInsert s.nextChan ({ capacity := 256, pending := [], closed := false }) s.chans, nextChan := s.nextChan + 1 } p.2.send = true := by
        intro p hp hpe
        have hp1 : p.1 ≠ clientID := fun heq => hpe ⟨hcid, heq⟩
        have hpmem : p ∈ room.clients := by
          rcases mem_alistInsert hp with rfl | hmem
          · exact absurd rfl hp1
          · exact hmem
        obtain ⟨hsne, hop⟩ := hfresh room hr p hpmem
        unfold chanOpen at hop ⊢
        dsimp only
        rw [alistLookup_insert_ne _ _ hsne]
        exact hop hp1
      obtain ⟨s', hbl⟩ := broadcastLoop_total
        ((marshalMessage { type := "user-joined", from_ := clientID, to_ := "",
                           data := some (participantsCountData (alistInsert clientID ({ id := clientID, roomId := roomID, userId := userID, send := s.nextChan } : Client) room.clients).length) }).getD "")
        clientID
        (alistInsert clientID ({ id := clientID, roomId := roomID, userId := userID, send := s.nextChan } : Client) room.clients)
        { s with rooms := alistInsert roomID ({ room with clients := alistInsert clientID ({ id := clientID, roomId := roomID, userId := userID, send := s.nextChan }) room.clients }) s.rooms, chans := alistInsert s.nextChan ({ capacity := 256, pending := [], closed := false }) s.chans, nextChan := s.nextChan + 1 }
        hopen1
      obtain ⟨-, -, hframe, -⟩ := broadcastLoop_inv hbl
      refine ⟨s', ?_, ?_⟩
      · unfold HandleWebSocket registerClient broadcastToRoom
        dsimp only
        rw [hr]
        dsimp only
        rw [alistLookup_insert_self]
        exact hbl
      · rw [hframe s.nextChan ?_]
        · exact alistLookup_insert_self _ _ _
        · intro p hp hpe
          have hp1 : p.1 ≠ clientID := fun heq => hpe ⟨hcid, heq⟩
          have hpmem : p ∈ room.clients := by
            rcases mem_alistInsert hp with rfl | hmem
            · exact absurd rfl hp1
            · exact hmem
          exact (hfresh room hr p hpmem).1
  · intro hcl hlen hcap
    unfold chanTrySend pushIfSpace
    rw [hcl, hlen, hcap]
    simp
  · intro hcl hlen hsend
    unfold chanTrySend pushIfSpace at hsend
    rw [hcl] at hsend
    simp only [Bool.false_eq_true, if_false] at hsend
    by_cases hsp : mb.pending.length < mb.capacity
    · rw [if_pos hsp] at hsend
      obtain rfl : _ = mb' := by injection hsend
      simpa using hsp
    · rw [if_neg hsp] at hsend
      obtain rfl : mb = mb' := by injection hsend
      exact hlen

set_option maxRecDepth 4000 in
/-- Closed instance of C10: the channel allocated by a register carries
capacity 256 and no pending messages; a send to a mailbox with 256
pending messages returns it unchanged; a send within bounds stays within
bounds. -/
theorem c10_mailbox_capacity_256_witness :
    (∃ s', HandleWebSocket soloServer "r1" "bob" 2 = some s' ∧
      alistLookup soloServer.nextChan s'.chans =
        some { capacity := 256, pending := [], closed := false }) ∧
    chanTrySend { capacity := 256, pending := List.replicate 256 "m", closed := false } "new" =
      some { capacity := 256, pending := List.replicate 256 "m", closed := false } ∧
    ((chanTrySend { capacity := 256, pending := List.replicate 256 "m", closed := false } "new").map
        (fun mb' => decide (mb'.pending.length ≤ 256))) = some true := by
  have h := c10_mailbox_capacity_256 soloServer "r1" "bob" 2
    { capacity := 256, pending := List.replicate 256 "m", closed := false }
    { capacity := 256, pending := List.replicate 256 "m", closed := false } "new"
  have hlen : ({ capacity := 256, pending := List.replicate 256 "m", closed := false } : Mailbox).pending.length = 256 := by
    dsimp only
    rw [List.length_replicate]
  refine ⟨h.1 (by decide) ?_, ?_, ?_⟩
  · intro room hr
    have hr' : some ({ id := "r1", clients := [("alice", demoAlice)] } : Room) = some room := by
      rw [← hr]
      rfl
    injection hr' with hh
    subst hh
    decide
  · exact h.2.1 rfl hlen rfl
  · rw [h.2.1 rfl hlen rfl]
    decide

/-! ### Claim C5: the user-joined notification (code bug)

`registerClient` builds the notification payload as
`json.RawMessage(` + "`" + '\x7b"participants_count": ' + "`" + ` + string(rune(participantCount)) + ...)`:
the count is converted to the character with that code point, not to its
decimal representation.  For any realistic count the resulting bytes are
not valid JSON, `json.Marshal(joinMsg)` fails, the error is discarded by
`msgBytes, _ :=`, and the nil byte slice is what reaches the other
members' mailboxes — no `user-joined` message carrying the count is ever
delivered. -/

/-- C5 fails on the code: registering "bob" into "r1" where "alice" is
present makes the hub build the payload `{"participants_count": \u0002}`
(code point 2, not the digit 2), whose marshal fails, so what is enqueued
to alice's mailbox is the empty (nil) byte string rather than any
`user-joined` notification carrying the new participant count. -/
theorem c5_user_joined_count_bug :
    participantsCountData 2 = "\x7b\"participants_count\": \x02\x7d" ∧
    marshalMessage { type := "user-joined", from_ := "bob", to_ := "",
                     data := some (participantsCountData 2) } = none ∧
    (HandleWebSocket soloServer "r1" "bob" 2).map
        (fun s' => alistLookup demoAlice.send s'.chans) =
      some (some { capacity := 256, pending := [""], closed := false }) := by
  refine ⟨by decide, by decide, by decide⟩

/-! ### Claim C2: membership replay -/

/-- C2: for every finite sequence of register and unregister requests on
one room, starting from the freshly constructed hub, the replay never
panics and the room's member map afterwards has exactly one entry per
identity that was registered and not subsequently unregistered — no
duplicates and no entries for unregistered participants. -/
theorem c2_membership_replay (r : String) (ops : List HubOp) :
    ∃ s, replay r ops = some s ∧
      roomMembers r s = expectedMembers ops ∧ (expectedMembers ops).Nodup := by
  obtain ⟨s, hrun, -, hmem⟩ := replayLoop_inv r ops NewSignalingServer (emptyServer_inv r)
  exact ⟨s, hrun, hmem, expectedMembersFrom_nodup ops [] (by simp)⟩

end SignalingHub
